import Mathlib

/-!
Triplex behavior (`app/src/behaviors/behavior_triplex.c`).

A shallow embedding of the triplex key behavior: the pool of active
instances, the two pool operations, the two continuation predicates, the two
own-key handlers and the two event listeners, followed by the properties
proved about them.

Modelling conventions.

* The global array `active_triplexes` is a list of slots; a pointer
  `struct active_triplex *` into it is the index of the slot, and `NULL` is
  `none`.  The `for` loops over the array are recursions over the list.
* The calls into the sub-behaviors (`behavior_keymap_binding_pressed`,
  `behavior_keymap_binding_released`) are not part of this file of the
  firmware: every handler returns the list of calls it makes, in order.
* `uint32_t` positions are natural numbers, `int32_t` values are integers; the
  one place where a `uint32_t` is converted to `int32_t` (the argument of
  `is_other_key_shared`) is written out as `to_int32`.  A key position is in
  the `int32_t` array of a configuration when its conversion is an element,
  which is how the code compares them; below `2 ^ 31` the conversion is the
  position itself.
* The handlers run to completion one after another: an event a sub-behavior
  raises while it is called is not delivered inside the call.  The one
  exception is `on_triplex_binding_pressed_nested`, the press handler with the
  events its calls raise delivered inside them.
* Dereferencing a null or dangling pointer is undefined in C; a handler that
  would do so returns `none`.
-/

namespace Triplex

/-! ## Constants -/

/-- The capacity of the pool, `#define ZMK_BHV_MAX_ACTIVE_TRIPLEX 10`. -/
def ZMK_BHV_MAX_ACTIVE_TRIPLEX : Nat := 10

/-- Modelled from the spec: the errno constant of the C library header, the
"exhaustion" outcome of allocation; `new_triplex` returns its negation. -/
def ENOMEM : Int := 12

/-- Modelled from the spec: the "opaque verdict" constant of `zmk/behavior.h`
(the behavior consumed the event). -/
def ZMK_BEHAVIOR_OPAQUE : Int := 0

/-- Modelled from the spec: the "bubble verdict" constant of
`zmk/event_manager.h` (the listener did not consume the event). -/
def ZMK_EV_EVENT_BUBBLE : Int := 0

/-! ## Data model -/

/-- Modelled from the spec: `struct zmk_behavior_binding` of `zmk/behavior.h`,
an opaque sub-behavior binding; the triplex never looks inside one. -/
structure zmk_behavior_binding where
  id : Nat
  deriving DecidableEq, Repr

/-- The `struct behavior_triplex_config`.  Each array is the list of its first
`_len` elements (`TRIPLEX_INST` sets every `_len` field to the length of the
property it initialises the array from); `behaviors` is the array the pointer
designates. -/
structure behavior_triplex_config where
  behaviors : List zmk_behavior_binding
  shared_layers : List Int
  shared_key_positions : List Int
  deriving DecidableEq, Repr

/-- The `struct active_triplex`; `config` is a pointer, `none` when null. -/
structure active_triplex where
  is_active : Bool
  is_pressed : Bool
  first_press : Bool
  position : Nat
  config : Option behavior_triplex_config
  deriving DecidableEq, Repr

/-- Modelled from the spec: the fields of `struct zmk_behavior_binding_event`
the triplex reads or writes, `{position, timestamp}`. -/
structure zmk_behavior_binding_event where
  position : Nat
  timestamp : Int
  deriving DecidableEq, Repr

/-- Modelled from the spec: the position-changed event `{position}` with the
press/release flag and timestamp it carries. -/
structure zmk_position_state_changed where
  position : Nat
  state : Bool
  timestamp : Int
  deriving DecidableEq, Repr

/-- Modelled from the spec: the layer-changed event `{layer, state}` with the
timestamp it carries. -/
structure zmk_layer_state_changed where
  layer : Nat
  state : Bool
  timestamp : Int
  deriving DecidableEq, Repr

/-- The pointer `&cfg->behaviors[index]` handed to a sub-behavior call: the
array and the offset into it. -/
structure binding_ptr where
  behaviors : List zmk_behavior_binding
  index : Nat
  deriving DecidableEq, Repr

/-- One call into the sub-behavior invocation primitive. -/
inductive sub_call where
  | pressed (binding : binding_ptr) (event : zmk_behavior_binding_event)
  | released (binding : binding_ptr) (event : zmk_behavior_binding_event)
  deriving DecidableEq, Repr

/-- What an entry point leaves behind: its return value, the pool, the
sub-behavior calls it made in order, and whether it wrote a `LOG_ERR` line. -/
structure outcome where
  ret : Int
  pool : List active_triplex
  calls : List sub_call
  log_err : Bool
  deriving DecidableEq, Repr

/-- A zero-initialised slot. -/
def zero_triplex : active_triplex :=
  { is_active := false, is_pressed := false, first_press := false, position := 0, config := none }

/-- The array `active_triplexes[ZMK_BHV_MAX_ACTIVE_TRIPLEX] = {}`. -/
def active_triplexes : List active_triplex :=
  List.replicate ZMK_BHV_MAX_ACTIVE_TRIPLEX zero_triplex

/-! ## Pool operations -/

/-- The function `find_triplex`: the first slot holding `position` that is
active, as an index, or `none` for `NULL`. -/
def find_triplex : List active_triplex → Nat → Option Nat
  | [], _ => none
  | t :: rest, position =>
    if t.position = position ∧ t.is_active = true then some 0
    else (find_triplex rest position).map Nat.succ

/-- What `new_triplex` hands back: the return code, the pool, and the value
written through the out-parameter (`none` when it is not written). -/
structure new_triplex_result where
  ret : Int
  pool : List active_triplex
  triplex : Option Nat
  deriving DecidableEq, Repr

/-- The function `new_triplex`: initialise the first slot that is not
active. -/
def new_triplex : List active_triplex → Nat → behavior_triplex_config → new_triplex_result
  | [], _, _ => { ret := -ENOMEM, pool := [], triplex := none }
  | t :: rest, position, config =>
    if t.is_active = false then
      { ret := 0
        pool := { position := position, config := some config, is_active := true,
                  is_pressed := false, first_press := true } :: rest
        triplex := some 0 }
    else
      let r := new_triplex rest position config
      { ret := r.ret, pool := t :: r.pool, triplex := r.triplex.map Nat.succ }

/-! ## Continuation predicates -/

/-- The conversion of a `uint32_t` to `int32_t`. -/
def to_int32 (x : Nat) : Int :=
  if x % 2 ^ 32 < 2 ^ 31 then ((x % 2 ^ 32 : Nat) : Int) else ((x % 2 ^ 32 : Nat) : Int) - 2 ^ 32

/-- The loop of both predicates: whether one of the array elements equals the
value. -/
def int32_array_has : List Int → Int → Bool
  | [], _ => false
  | x :: xs, v => if x = v then true else int32_array_has xs v

/-- The function `is_other_key_shared`; `none` when `triplex->config` is null. -/
def is_other_key_shared (triplex : active_triplex) (position : Int) : Option Bool :=
  match triplex.config with
  | none => none
  | some c => some (int32_array_has c.shared_key_positions position)

/-- The function `is_layer_shared`; `none` when `triplex->config` is null. -/
def is_layer_shared (triplex : active_triplex) (layer : Int) : Option Bool :=
  match triplex.config with
  | none => none
  | some c => some (int32_array_has c.shared_layers layer)

/-! ## Own-key handlers -/

/-- The part of `on_triplex_binding_pressed` after the instance is resolved
(from `triplex->is_pressed = true` on), `triplex` being the slot index. -/
def press_resolved (pool : List active_triplex) (cfg : behavior_triplex_config)
    (event : zmk_behavior_binding_event) (triplex : Nat) : Option outcome :=
  match pool[triplex]? with
  | none => none
  | some t =>
    let t1 := { t with is_pressed := true }
    if t1.first_press = true then
      some { ret := ZMK_BEHAVIOR_OPAQUE
             pool := pool.set triplex { t1 with first_press := false }
             calls := [sub_call.pressed ⟨cfg.behaviors, 0⟩ event,
                       sub_call.released ⟨cfg.behaviors, 0⟩ event,
                       sub_call.pressed ⟨cfg.behaviors, 1⟩ event]
             log_err := false }
    else
      some { ret := ZMK_BEHAVIOR_OPAQUE
             pool := pool.set triplex t1
             calls := [sub_call.pressed ⟨cfg.behaviors, 1⟩ event]
             log_err := false }

/-- The function `on_triplex_binding_pressed`, `cfg` being the `dev->config` of
the binding's device. -/
def on_triplex_binding_pressed (pool : List active_triplex) (cfg : behavior_triplex_config)
    (event : zmk_behavior_binding_event) : Option outcome :=
  match find_triplex pool event.position with
  | some triplex => press_resolved pool cfg event triplex
  | none =>
    let r := new_triplex pool event.position cfg
    if r.ret = -ENOMEM then
      some { ret := ZMK_BEHAVIOR_OPAQUE, pool := r.pool, calls := [], log_err := true }
    else
      match r.triplex with
      | none => none
      | some triplex => press_resolved r.pool cfg event triplex

/-- The function `on_triplex_binding_released`. -/
def on_triplex_binding_released (pool : List active_triplex) (cfg : behavior_triplex_config)
    (event : zmk_behavior_binding_event) : Option outcome :=
  match find_triplex pool event.position with
  | none => some { ret := ZMK_BEHAVIOR_OPAQUE, pool := pool, calls := [], log_err := false }
  | some triplex =>
    match pool[triplex]? with
    | none => none
    | some t =>
      some { ret := ZMK_BEHAVIOR_OPAQUE
             pool := pool.set triplex { t with is_pressed := false }
             calls := [sub_call.released ⟨cfg.behaviors, 1⟩ event]
             log_err := false }

/-! ## Event listeners -/

/-- The body both listeners run on the instance they end: clear `is_active`,
then release `behaviors[1]` if the key is held, then tap `behaviors[2]`, all
with the instance's position and the time `now` read from `k_uptime_get()`.
Returns the slot and the calls. -/
def end_triplex (t : active_triplex) (c : behavior_triplex_config) (now : Int) :
    active_triplex × List sub_call :=
  let t1 := { t with is_active := false }
  let event : zmk_behavior_binding_event := { position := t1.position, timestamp := now }
  (t1,
   (if t1.is_pressed = true then [sub_call.released ⟨c.behaviors, 1⟩ event] else []) ++
     [sub_call.pressed ⟨c.behaviors, 2⟩ event, sub_call.released ⟨c.behaviors, 2⟩ event])

/-- The scan of `triplex_position_state_changed_listener` from some slot on:
the slots after the scan and the calls made; `none` on a null `config`. -/
def position_scan (ev_position : Nat) (now : Int) :
    List active_triplex → Option (List active_triplex × List sub_call)
  | [] => some ([], [])
  | t :: rest =>
    if t.is_active = false then
      (position_scan ev_position now rest).map fun r => (t :: r.1, r.2)
    else if t.position = ev_position then
      (position_scan ev_position now rest).map fun r => (t :: r.1, r.2)
    else
      match is_other_key_shared t (to_int32 ev_position) with
      | none => none
      | some true => (position_scan ev_position now rest).map fun r => (t :: r.1, r.2)
      | some false =>
        match t.config with
        | none => none
        | some c => some ((end_triplex t c now).1 :: rest, (end_triplex t c now).2)

/-- The function `triplex_position_state_changed_listener`; `ev` is the result
of `as_zmk_position_state_changed` (`none` for `NULL`). -/
def triplex_position_state_changed_listener (pool : List active_triplex)
    (ev : Option zmk_position_state_changed) (now : Int) : Option outcome :=
  match ev with
  | none => some { ret := ZMK_EV_EVENT_BUBBLE, pool := pool, calls := [], log_err := false }
  | some ev =>
    (position_scan ev.position now pool).map fun r =>
      { ret := ZMK_EV_EVENT_BUBBLE, pool := r.1, calls := r.2, log_err := false }

/-- The scan of `triplex_layer_state_changed_listener` from some slot on. -/
def layer_scan (ev_layer : Nat) (now : Int) :
    List active_triplex → Option (List active_triplex × List sub_call)
  | [] => some ([], [])
  | t :: rest =>
    if t.is_active = false then
      (layer_scan ev_layer now rest).map fun r => (t :: r.1, r.2)
    else
      match is_layer_shared t (ev_layer : Int) with
      | none => none
      | some true => (layer_scan ev_layer now rest).map fun r => (t :: r.1, r.2)
      | some false =>
        match t.config with
        | none => none
        | some c => some ((end_triplex t c now).1 :: rest, (end_triplex t c now).2)

/-- The function `triplex_layer_state_changed_listener`; `ev` is the result of
`as_zmk_layer_state_changed` (`none` for `NULL`). -/
def triplex_layer_state_changed_listener (pool : List active_triplex)
    (ev : Option zmk_layer_state_changed) (now : Int) : Option outcome :=
  match ev with
  | none => some { ret := ZMK_EV_EVENT_BUBBLE, pool := pool, calls := [], log_err := false }
  | some ev =>
    if ev.state = false then
      some { ret := ZMK_EV_EVENT_BUBBLE, pool := pool, calls := [], log_err := false }
    else
      (layer_scan ev.layer now pool).map fun r =>
        { ret := ZMK_EV_EVENT_BUBBLE, pool := r.1, calls := r.2, log_err := false }

/-! ## Sequences of entry-point calls -/

/-- One call of an entry point by the host, with its arguments; the listeners
also get the value `k_uptime_get()` would return. -/
inductive entry_call where
  | binding_pressed (cfg : behavior_triplex_config) (event : zmk_behavior_binding_event)
  | binding_released (cfg : behavior_triplex_config) (event : zmk_behavior_binding_event)
  | position_state_changed (ev : Option zmk_position_state_changed) (now : Int)
  | layer_state_changed (ev : Option zmk_layer_state_changed) (now : Int)
  deriving DecidableEq, Repr

/-- Run one entry point on a pool. -/
def dispatch (pool : List active_triplex) : entry_call → Option outcome
  | .binding_pressed cfg event => on_triplex_binding_pressed pool cfg event
  | .binding_released cfg event => on_triplex_binding_released pool cfg event
  | .position_state_changed ev now => triplex_position_state_changed_listener pool ev now
  | .layer_state_changed ev now => triplex_layer_state_changed_listener pool ev now

/-- The pool together with every sub-behavior call made so far, oldest first. -/
structure machine where
  pool : List active_triplex
  trace : List sub_call
  deriving DecidableEq, Repr

/-- The machine at start-up. -/
def machine_init : machine := { pool := active_triplexes, trace := [] }

/-- One entry-point call on the machine. -/
def step (m : machine) (e : entry_call) : Option machine :=
  (dispatch m.pool e).map fun o => { pool := o.pool, trace := m.trace ++ o.calls }

/-- A sequence of entry-point calls, in order. -/
def run : machine → List entry_call → Option machine
  | m, [] => some m
  | m, e :: es => (step m e).bind fun m1 => run m1 es

/-! ## Vocabulary of the properties -/

/-- The configuration of the two scenarios: three bindings, shared key
position 5, shared layer 1. -/
def scenario_config : behavior_triplex_config :=
  { behaviors := [⟨0⟩, ⟨1⟩, ⟨2⟩], shared_layers := [1], shared_key_positions := [5] }

/-- A held instance of the scenario configuration at a position. -/
def held_at (position : Nat) : active_triplex :=
  { is_active := true, is_pressed := true, first_press := false, position := position,
    config := some scenario_config }

/-- The pool after the keys at positions 10 and 11 were pressed in turn. -/
def two_held : List active_triplex :=
  held_at 10 :: held_at 11 :: List.replicate 8 zero_triplex

/-- A pool with every slot taken, by the keys at positions 0 to 9. -/
def full_pool : List active_triplex :=
  (List.range ZMK_BHV_MAX_ACTIVE_TRIPLEX).map held_at

/-- The binding pointer of a call. -/
def sub_call.binding : sub_call → binding_ptr
  | .pressed b _ => b
  | .released b _ => b

/-- The event of a call. -/
def sub_call.event : sub_call → zmk_behavior_binding_event
  | .pressed _ e => e
  | .released _ e => e

/-- Whether the call is a press (and not a release). -/
def sub_call.is_press : sub_call → Bool
  | .pressed _ _ => true
  | .released _ _ => false

/-- The call is on `behaviors[1]` and carries position `p`. -/
def is_hold_call (p : Nat) (c : sub_call) : Bool :=
  decide (c.binding.index = 1) && decide (c.event.position = p)

/-- The calls on `behaviors[1]` with position `p`, in order. -/
def hold_calls (p : Nat) (trace : List sub_call) : List sub_call :=
  trace.filter (is_hold_call p)

/-- The calls are press, release, press, ... in turn, the first one a press
when `expect_press` and a release otherwise. -/
def alternates : Bool → List sub_call → Bool
  | _, [] => true
  | expect_press, c :: cs => (c.is_press == expect_press) && alternates (!expect_press) cs

/-- Whether the host may make the call when the keys at the positions `held`
are down: a key that is down is not pressed again, a key that is up is not
released. -/
def own_key_ok (held : List Nat) : entry_call → Bool
  | .binding_pressed _ event => !held.contains event.position
  | .binding_released _ event => held.contains event.position
  | _ => true

/-- The positions of the keys that are down after the call. -/
def next_held (held : List Nat) : entry_call → List Nat
  | .binding_pressed _ event => event.position :: held
  | .binding_released _ event => held.filter fun q => q != event.position
  | _ => held

/-- At each position the own-key presses and releases of the sequence come in
turn, a press first, `held` being the positions whose key is down at its
start. -/
def own_key_alternate : List Nat → List entry_call → Bool
  | _, [] => true
  | held, e :: es => own_key_ok held e && own_key_alternate (next_held held e) es

/-- The own-key call is made with the configuration of its position. -/
def uses_config (cfg_of : Nat → behavior_triplex_config) : entry_call → Bool
  | .binding_pressed cfg event => decide (cfg = cfg_of event.position)
  | .binding_released cfg event => decide (cfg = cfg_of event.position)
  | _ => true

/-- Every active slot has a configuration. -/
def configured (pool : List active_triplex) : Prop :=
  ∀ t ∈ pool, t.is_active = true → t.config ≠ none

instance (pool : List active_triplex) : Decidable (configured pool) := by
  unfold configured; infer_instance

/-- The slot fails the continuation test of the position listener. -/
def fails_position_test (q : Nat) (t : active_triplex) : Prop :=
  t.is_active = true ∧ t.position ≠ q ∧
    ∃ c, t.config = some c ∧ to_int32 q ∉ c.shared_key_positions

instance (q : Nat) (t : active_triplex) : Decidable (fails_position_test q t) := by
  unfold fails_position_test
  cases h : t.config with
  | none => exact decidable_of_iff False (by simp)
  | some c =>
    exact decidable_of_iff
      (t.is_active = true ∧ t.position ≠ q ∧ to_int32 q ∉ c.shared_key_positions) (by simp)

/-- The slot fails the continuation test of the layer listener. -/
def fails_layer_test (layer : Nat) (t : active_triplex) : Prop :=
  t.is_active = true ∧ ∃ c, t.config = some c ∧ (layer : Int) ∉ c.shared_layers

instance (layer : Nat) (t : active_triplex) : Decidable (fails_layer_test layer t) := by
  unfold fails_layer_test
  cases h : t.config with
  | none => exact decidable_of_iff False (by simp)
  | some c =>
    exact decidable_of_iff (t.is_active = true ∧ (layer : Int) ∉ c.shared_layers) (by simp)

/-- The decision a listener takes on one slot: `some true` to go on to the next
slot, `some false` to end the instance, `none` when it reads a null `config`. -/
def position_test (q : Nat) (t : active_triplex) : Option Bool :=
  if t.is_active = false then some true
  else if t.position = q then some true
  else is_other_key_shared t (to_int32 q)

/-- The decision of the layer listener on one slot. -/
def layer_test (layer : Nat) (t : active_triplex) : Option Bool :=
  if t.is_active = false then some true else is_layer_shared t (layer : Int)

/-- The common shape of the two scans. -/
def first_fail_scan (test : active_triplex → Option Bool) (now : Int) :
    List active_triplex → Option (List active_triplex × List sub_call)
  | [] => some ([], [])
  | t :: rest =>
    match test t with
    | none => none
    | some true => (first_fail_scan test now rest).map fun r => (t :: r.1, r.2)
    | some false =>
      match t.config with
      | none => none
      | some c => some ((end_triplex t c now).1 :: rest, (end_triplex t c now).2)

/-- What a scan can have done: nothing, or ended the first slot that fails. -/
def scan_effect (fails : active_triplex → Prop) (now : Int)
    (pool pool1 : List active_triplex) (calls : List sub_call) : Prop :=
  (pool1 = pool ∧ calls = [] ∧ ∀ u ∈ pool, ¬ fails u) ∨
  ∃ j u cu, pool[j]? = some u ∧ fails u ∧ u.config = some cu ∧
    (∀ v ∈ pool.take j, ¬ fails v) ∧
    pool1 = pool.set j (end_triplex u cu now).1 ∧ calls = (end_triplex u cu now).2

/-- What a listener can have done to the pool: nothing, or ended one active
slot. -/
def listener_effect (now : Int) (pool : List active_triplex) (o : outcome) : Prop :=
  (o.pool = pool ∧ o.calls = []) ∨
  ∃ j u cu, pool[j]? = some u ∧ u.is_active = true ∧ u.config = some cu ∧
    o.pool = pool.set j (end_triplex u cu now).1 ∧ o.calls = (end_triplex u cu now).2

/-- The slot `new_triplex` writes. -/
def fresh_triplex (position : Nat) (config : behavior_triplex_config) : active_triplex :=
  { is_active := true, is_pressed := false, first_press := true, position := position,
    config := some config }

/-- All sub-behavior calls of a first press. -/
def first_press_calls (cfg : behavior_triplex_config) (event : zmk_behavior_binding_event) :
    List sub_call :=
  [sub_call.pressed ⟨cfg.behaviors, 0⟩ event, sub_call.released ⟨cfg.behaviors, 0⟩ event,
   sub_call.pressed ⟨cfg.behaviors, 1⟩ event]

/-- No two distinct slots are active at the same position. -/
def unique_active (pool : List active_triplex) : Prop :=
  ∀ (i j : Nat) (ti tj : active_triplex), pool[i]? = some ti → pool[j]? = some tj →
    ti.is_active = true → tj.is_active = true → ti.position = tj.position → i = j

/-- What holds of every pool the entry points can produce from the initial
one: active slots are configured, hold distinct positions, and have had their
first press. -/
def pool_inv (pool : List active_triplex) : Prop :=
  configured pool ∧ unique_active pool ∧
    ∀ t ∈ pool, t.is_active = true → t.first_press = false

/-- One step of following the hold calls at `p`: `some o` while they came in
turn, `o` telling whether the last one was a press; `none` once they did
not. -/
def hold_step (p : Nat) (s : Option Bool) (c : sub_call) : Option Bool :=
  match s with
  | none => none
  | some o =>
    if is_hold_call p c = true then (if c.is_press = o then none else some c.is_press)
    else some o

/-- Following the hold calls at `p` through a whole trace. -/
def hold_state (p : Nat) (trace : List sub_call) : Option Bool :=
  trace.foldl (hold_step p) (some false)

/-- Some active slot at `p` has its key down. -/
def pressed_at (pool : List active_triplex) (p : Nat) : Prop :=
  ∃ t ∈ pool, t.is_active = true ∧ t.is_pressed = true ∧ t.position = p

/-- What ties the pool to the keys that are down and to the trace, under the
discipline of `own_key_alternate` and `uses_config`. -/
def hold_inv (cfg_of : Nat → behavior_triplex_config) (held : List Nat)
    (pool : List active_triplex) (trace : List sub_call) : Prop :=
  (∀ t ∈ pool, t.is_active = true → (t.is_pressed = true ↔ t.position ∈ held)) ∧
  (∀ t ∈ pool, t.is_active = true → t.config = some (cfg_of t.position)) ∧
  (∀ p, ∃ o, hold_state p trace = some o ∧ (o = true ↔ pressed_at pool p)) ∧
  (∀ c ∈ trace, c.binding.index = 1 →
    c.binding.behaviors = (cfg_of c.event.position).behaviors)

/-- The binding a pointer designates, `none` past the end of the array. -/
def binding_ptr.target (b : binding_ptr) : Option zmk_behavior_binding :=
  b.behaviors[b.index]?

/-- What a call looks like from outside: press or release, of which binding,
with which position. -/
def sub_call.summary (c : sub_call) : Bool × Option zmk_behavior_binding × Nat :=
  (c.is_press, c.binding.target, c.event.position)

/-- The pool whose first slot is `t` and whose other slots were never used. -/
def pool_with (t : active_triplex) : List active_triplex :=
  t :: List.replicate (ZMK_BHV_MAX_ACTIVE_TRIPLEX - 1) zero_triplex

/-- A pool with a stale slot: the instance at position 10 was ended, the one at
position 11 is held. -/
def stale_pool : List active_triplex :=
  { held_at 10 with is_active := false } :: held_at 11 :: List.replicate 8 zero_triplex

/-- The number of presses of `behaviors[index]` in a trace. -/
def press_count (index : Nat) (trace : List sub_call) : Nat :=
  trace.countP fun c => c.is_press && decide (c.binding.index = index)

/-- The number of active slots of a pool. -/
def active_count (pool : List active_triplex) : Nat :=
  pool.countP fun t => t.is_active

/-- A second configuration, with bindings of its own. -/
def other_config : behavior_triplex_config :=
  { behaviors := [⟨3⟩, ⟨4⟩, ⟨5⟩], shared_layers := [], shared_key_positions := [] }

/-- Two slots agree on the active flag and, when active, on every field. -/
def same_live (x y : active_triplex) : Prop :=
  x.is_active = y.is_active ∧ (x.is_active = true → x = y)

instance (x y : active_triplex) : Decidable (same_live x y) := by
  unfold same_live; infer_instance

/-- Two pools agree slot by slot: they may differ in the fields of inactive
slots only. -/
def pools_agree : List active_triplex → List active_triplex → Prop
  | [], [] => True
  | x :: xs, y :: ys => same_live x y ∧ pools_agree xs ys
  | [], _ :: _ => False
  | _ :: _, [] => False

/-- Deciding `pools_agree`. -/
def pools_agree_decide : (a b : List active_triplex) → Decidable (pools_agree a b)
  | [], [] => isTrue trivial
  | x :: xs, y :: ys =>
    match pools_agree_decide xs ys with
    | isTrue h =>
      if hxy : same_live x y then isTrue ⟨hxy, h⟩ else isFalse fun hn => hxy hn.1
    | isFalse h => isFalse fun hn => h hn.2
  | [], _ :: _ => isFalse fun h => h
  | _ :: _, [] => isFalse fun h => h

instance (a b : List active_triplex) : Decidable (pools_agree a b) := pools_agree_decide a b

/-- Two runs of an entry point agree: both read a null `config`, or both
return, with the same value, the same calls, the same log and pools that
agree. -/
def outcomes_agree : Option outcome → Option outcome → Prop
  | none, none => True
  | some x, some y =>
    x.ret = y.ret ∧ x.calls = y.calls ∧ x.log_err = y.log_err ∧ pools_agree x.pool y.pool
  | none, some _ => False
  | some _, none => False

/-- Two scans agree. -/
def scans_agree :
    Option (List active_triplex × List sub_call) →
    Option (List active_triplex × List sub_call) → Prop
  | none, none => True
  | some x, some y => x.2 = y.2 ∧ pools_agree x.1 y.1
  | none, some _ => False
  | some _, none => False

/-- The pool `stale_pool` with other values in the fields of its inactive
slots. -/
def stale_pool_other : List active_triplex :=
  { is_active := false, is_pressed := false, first_press := true, position := 11,
    config := some other_config } :: held_at 11 ::
    List.replicate 8 { zero_triplex with position := 10, is_pressed := true }

/-- One call into a sub-behavior while events can be delivered: the call is
recorded, then the host delivers the entry-point calls `raised c` that the
sub-behavior raises, one after another and each to its end, before the call
returns.  The calls those entry points make raise nothing further. -/
def call_out (raised : sub_call → List entry_call) (m : machine) (c : sub_call) :
    Option machine :=
  run { pool := m.pool, trace := m.trace ++ [c] } (raised c)

/-- The part of `on_triplex_binding_pressed` after the instance is resolved,
with events delivered inside its calls into the sub-behaviors.  The handler
keeps the pointer `triplex` across the calls, as the source does: it sets
`is_pressed`, reads `first_press`, calls `behaviors[0]` pressed and released,
clears `first_press` through the pointer, and calls `behaviors[1]` pressed. -/
def press_resolved_nested (raised : sub_call → List entry_call)
    (pool : List active_triplex) (cfg : behavior_triplex_config)
    (event : zmk_behavior_binding_event) (triplex : Nat) : Option outcome :=
  match pool[triplex]? with
  | none => none
  | some t =>
    let pool1 := pool.set triplex { t with is_pressed := true }
    if t.first_press = true then
      (call_out raised { pool := pool1, trace := [] }
          (sub_call.pressed ⟨cfg.behaviors, 0⟩ event)).bind fun m1 =>
        (call_out raised m1 (sub_call.released ⟨cfg.behaviors, 0⟩ event)).bind fun m2 =>
          match m2.pool[triplex]? with
          | none => none
          | some t2 =>
            (call_out raised
                { pool := m2.pool.set triplex { t2 with first_press := false },
                  trace := m2.trace }
                (sub_call.pressed ⟨cfg.behaviors, 1⟩ event)).map fun m3 =>
              { ret := ZMK_BEHAVIOR_OPAQUE, pool := m3.pool, calls := m3.trace,
                log_err := false }
    else
      (call_out raised { pool := pool1, trace := [] }
          (sub_call.pressed ⟨cfg.behaviors, 1⟩ event)).map fun m3 =>
        { ret := ZMK_BEHAVIOR_OPAQUE, pool := m3.pool, calls := m3.trace, log_err := false }

/-- The function `on_triplex_binding_pressed` with events delivered inside its
calls into the sub-behaviors; `calls` of the outcome holds the calls of the
handler and of the entry points run inside them, in the order they are
made. -/
def on_triplex_binding_pressed_nested (raised : sub_call → List entry_call)
    (pool : List active_triplex) (cfg : behavior_triplex_config)
    (event : zmk_behavior_binding_event) : Option outcome :=
  match find_triplex pool event.position with
  | some triplex => press_resolved_nested raised pool cfg event triplex
  | none =>
    let r := new_triplex pool event.position cfg
    if r.ret = -ENOMEM then
      some { ret := ZMK_BEHAVIOR_OPAQUE, pool := r.pool, calls := [], log_err := true }
    else
      match r.triplex with
      | none => none
      | some triplex => press_resolved_nested raised r.pool cfg event triplex

/-- Sub-behaviors for the failing run: `behaviors[0]` of `scenario_config`
activates layer 2 when it is pressed, so the host delivers that layer event
inside the call; no other call raises anything. -/
def first_press_raises_layer (c : sub_call) : List entry_call :=
  match c with
  | .pressed b _ =>
    if b = ⟨scenario_config.behaviors, 0⟩ then [.layer_state_changed (some ⟨2, true, 1⟩) 1]
    else []
  | .released _ _ => []

theorem int32_array_has_iff (l : List Int) (v : Int) : int32_array_has l v = true ↔ v ∈ l := by
  induction l with
  | nil => simp [int32_array_has]
  | cons x xs ih =>
    simp only [int32_array_has, List.mem_cons]
    by_cases h : x = v
    · simp [h]
    · have hvx : ¬ v = x := fun e => h e.symm
      simp [h, hvx, ih]

theorem position_scan_eq (q : Nat) (now : Int) (pool : List active_triplex) :
    position_scan q now pool = first_fail_scan (position_test q) now pool := by
  induction pool with
  | nil => rfl
  | cons t rest ih =>
    by_cases ha : t.is_active = false
    · have ht : position_test q t = some true := by simp [position_test, ha]
      simp [position_scan, first_fail_scan, ha, ht, ih]
    · by_cases hp : t.position = q
      · have ht : position_test q t = some true := by simp [position_test, hp]
        simp [position_scan, first_fail_scan, ha, hp, ht, ih]
      · have ht : position_test q t = is_other_key_shared t (to_int32 q) := by
          simp [position_test, ha, hp]
        cases hs : is_other_key_shared t (to_int32 q) with
        | none => simp [position_scan, first_fail_scan, ha, hp, ht, hs]
        | some b => cases b <;> simp [position_scan, first_fail_scan, ha, hp, ht, hs, ih]

theorem layer_scan_eq (layer : Nat) (now : Int) (pool : List active_triplex) :
    layer_scan layer now pool = first_fail_scan (layer_test layer) now pool := by
  induction pool with
  | nil => rfl
  | cons t rest ih =>
    by_cases ha : t.is_active = false
    · have ht : layer_test layer t = some true := by simp [layer_test, ha]
      simp [layer_scan, first_fail_scan, ha, ht, ih]
    · have ht : layer_test layer t = is_layer_shared t (layer : Int) := by
        simp [layer_test, ha]
      cases hs : is_layer_shared t (layer : Int) with
      | none => simp [layer_scan, first_fail_scan, ha, ht, hs]
      | some b => cases b <;> simp [layer_scan, first_fail_scan, ha, ht, hs, ih]

theorem first_fail_scan_unchanged (test : active_triplex → Option Bool) (now : Int)
    (pool : List active_triplex) (h : ∀ u ∈ pool, test u = some true) :
    first_fail_scan test now pool = some (pool, []) := by
  induction pool with
  | nil => rfl
  | cons t rest ih =>
    have ht := h t (List.mem_cons_self _ _)
    have ihr := ih fun u hu => h u (List.mem_cons_of_mem _ hu)
    simp [first_fail_scan, ht, ihr]

theorem first_fail_scan_first (test : active_triplex → Option Bool) (now : Int)
    (pool : List active_triplex) (i : Nat) (t : active_triplex) (c : behavior_triplex_config)
    (hi : pool[i]? = some t) (hf : test t = some false) (hc : t.config = some c)
    (hlow : ∀ u ∈ pool.take i, test u = some true) :
    first_fail_scan test now pool =
      some (pool.set i (end_triplex t c now).1, (end_triplex t c now).2) := by
  induction pool generalizing i with
  | nil => simp at hi
  | cons s rest ih =>
    cases i with
    | zero =>
      simp at hi
      subst hi
      simp [first_fail_scan, hf, hc]
    | succ k =>
      simp at hi
      have hs : test s = some true := hlow s (by simp)
      have ihr := ih k hi fun u hu => hlow u (by simp [hu])
      simp [first_fail_scan, hs, ihr]

theorem first_fail_scan_cases (test : active_triplex → Option Bool) (now : Int)
    (pool pool1 : List active_triplex) (calls : List sub_call)
    (h : first_fail_scan test now pool = some (pool1, calls)) :
    (pool1 = pool ∧ calls = [] ∧ ∀ u ∈ pool, test u = some true) ∨
    ∃ i t c, pool[i]? = some t ∧ test t = some false ∧ t.config = some c ∧
      (∀ u ∈ pool.take i, test u = some true) ∧
      pool1 = pool.set i (end_triplex t c now).1 ∧ calls = (end_triplex t c now).2 := by
  induction pool generalizing pool1 calls with
  | nil =>
    simp [first_fail_scan] at h
    left; simp [h]
  | cons s rest ih =>
    unfold first_fail_scan at h
    cases hs : test s with
    | none => simp [hs] at h
    | some b =>
      cases b with
      | true =>
        simp only [hs] at h
        cases hr : first_fail_scan test now rest with
        | none => simp [hr] at h
        | some r =>
          obtain ⟨rp, rc⟩ := r
          simp [hr] at h
          obtain ⟨h1, h2⟩ := h
          subst h1 h2
          rcases ih rp rc hr with ⟨e1, e2, e3⟩ | ⟨i, t, c, a1, a2, a3, a4, a5, a6⟩
          · left
            refine ⟨by rw [e1], e2, ?_⟩
            intro u hu
            rcases List.mem_cons.mp hu with e | e
            · rw [e]; exact hs
            · exact e3 u e
          · right
            refine ⟨i + 1, t, c, by simpa using a1, a2, a3, ?_, by simp [a5], a6⟩
            intro u hu
            simp at hu
            rcases hu with e | e
            · rw [e]; exact hs
            · exact a4 u e
      | false =>
        simp only [hs] at h
        cases hc : s.config with
        | none => simp [hc] at h
        | some c =>
          simp [hc] at h
          right
          exact ⟨0, s, c, by simp, hs, hc, by simp, by simp [h.1], h.2.symm⟩

theorem first_fail_scan_total (test : active_triplex → Option Bool) (now : Int)
    (pool : List active_triplex) (hcfg : configured pool)
    (h : ∀ u ∈ pool, test u ≠ none) (hact : ∀ u, test u = some false → u.is_active = true) :
    ∃ r, first_fail_scan test now pool = some r := by
  induction pool with
  | nil => exact ⟨_, rfl⟩
  | cons t rest ih =>
    have hcfg1 : configured rest := fun u hu => hcfg u (List.mem_cons_of_mem _ hu)
    obtain ⟨r, hr⟩ := ih hcfg1 fun u hu => h u (List.mem_cons_of_mem _ hu)
    unfold first_fail_scan
    cases hs : test t with
    | none => exact absurd hs (h t (List.mem_cons_self _ _))
    | some b =>
      cases b with
      | true => simp [hr]
      | false =>
        have := hcfg t (List.mem_cons_self _ _) (hact t hs)
        cases hc : t.config with
        | none => exact absurd hc this
        | some c => simp

theorem position_test_false_iff (q : Nat) (t : active_triplex) :
    position_test q t = some false ↔ fails_position_test q t := by
  unfold position_test fails_position_test is_other_key_shared
  by_cases ha : t.is_active = false
  · simp [ha]
  · by_cases hp : t.position = q
    · simp [ha, hp]
    · cases hc : t.config with
      | none => simp [ha, hp]
      | some c =>
        have hm := int32_array_has_iff c.shared_key_positions (to_int32 q)
        by_cases hin : to_int32 q ∈ c.shared_key_positions
        · simp [ha, hp, hin, hm.mpr hin]
        · have : int32_array_has c.shared_key_positions (to_int32 q) = false := by
            cases hb : int32_array_has c.shared_key_positions (to_int32 q) with
            | false => rfl
            | true => exact absurd (hm.mp hb) hin
          simp [ha, hp, hin, this]

theorem position_test_true_of (q : Nat) (t : active_triplex)
    (hcfg : t.is_active = true → t.config ≠ none) (hnf : ¬ fails_position_test q t) :
    position_test q t = some true := by
  cases h : position_test q t with
  | none =>
    unfold position_test is_other_key_shared at h
    by_cases ha : t.is_active = false
    · simp [ha] at h
    · by_cases hp : t.position = q
      · simp [ha, hp] at h
      · have hact : t.is_active = true := by simpa using ha
        cases hc : t.config with
        | none => exact absurd hc (hcfg hact)
        | some c => simp [ha, hp, hc] at h
  | some b =>
    cases b with
    | true => rfl
    | false => exact absurd ((position_test_false_iff q t).mp h) hnf

theorem position_test_true_not_fails (q : Nat) (t : active_triplex)
    (h : position_test q t = some true) : ¬ fails_position_test q t := by
  intro hf
  rw [(position_test_false_iff q t).mpr hf] at h
  simp at h

theorem layer_test_false_iff (layer : Nat) (t : active_triplex) :
    layer_test layer t = some false ↔ fails_layer_test layer t := by
  unfold layer_test fails_layer_test is_layer_shared
  by_cases ha : t.is_active = false
  · simp [ha]
  · cases hc : t.config with
    | none => simp [ha]
    | some c =>
      have hm := int32_array_has_iff c.shared_layers (layer : Int)
      by_cases hin : (layer : Int) ∈ c.shared_layers
      · simp [ha, hin, hm.mpr hin]
      · have : int32_array_has c.shared_layers (layer : Int) = false := by
          cases hb : int32_array_has c.shared_layers (layer : Int) with
          | false => rfl
          | true => exact absurd (hm.mp hb) hin
        simp [ha, hin, this]

theorem layer_test_true_of (layer : Nat) (t : active_triplex)
    (hcfg : t.is_active = true → t.config ≠ none) (hnf : ¬ fails_layer_test layer t) :
    layer_test layer t = some true := by
  cases h : layer_test layer t with
  | none =>
    unfold layer_test is_layer_shared at h
    by_cases ha : t.is_active = false
    · simp [ha] at h
    · have hact : t.is_active = true := by simpa using ha
      cases hc : t.config with
      | none => exact absurd hc (hcfg hact)
      | some c => simp [ha, hc] at h
  | some b =>
    cases b with
    | true => rfl
    | false => exact absurd ((layer_test_false_iff layer t).mp h) hnf

theorem layer_test_true_not_fails (layer : Nat) (t : active_triplex)
    (h : layer_test layer t = some true) : ¬ fails_layer_test layer t := by
  intro hf
  rw [(layer_test_false_iff layer t).mpr hf] at h
  simp at h

theorem position_scan_effect (q : Nat) (now : Int) (pool pool1 : List active_triplex)
    (calls : List sub_call) (h : position_scan q now pool = some (pool1, calls)) :
    scan_effect (fails_position_test q) now pool pool1 calls := by
  rw [position_scan_eq] at h
  rcases first_fail_scan_cases _ _ _ _ _ h with ⟨e1, e2, e3⟩ | ⟨j, u, cu, a1, a2, a3, a4, a5, a6⟩
  · exact Or.inl ⟨e1, e2, fun u hu => position_test_true_not_fails q u (e3 u hu)⟩
  · exact Or.inr ⟨j, u, cu, a1, (position_test_false_iff q u).mp a2, a3,
      fun v hv => position_test_true_not_fails q v (a4 v hv), a5, a6⟩

theorem layer_scan_effect (layer : Nat) (now : Int) (pool pool1 : List active_triplex)
    (calls : List sub_call) (h : layer_scan layer now pool = some (pool1, calls)) :
    scan_effect (fails_layer_test layer) now pool pool1 calls := by
  rw [layer_scan_eq] at h
  rcases first_fail_scan_cases _ _ _ _ _ h with ⟨e1, e2, e3⟩ | ⟨j, u, cu, a1, a2, a3, a4, a5, a6⟩
  · exact Or.inl ⟨e1, e2, fun u hu => layer_test_true_not_fails layer u (e3 u hu)⟩
  · exact Or.inr ⟨j, u, cu, a1, (layer_test_false_iff layer u).mp a2, a3,
      fun v hv => layer_test_true_not_fails layer v (a4 v hv), a5, a6⟩

theorem position_scan_total (q : Nat) (now : Int) (pool : List active_triplex)
    (hcfg : configured pool) : ∃ r, position_scan q now pool = some r := by
  rw [position_scan_eq]
  refine first_fail_scan_total _ now pool hcfg ?_ ?_
  · intro u hu hn
    by_cases hf : fails_position_test q u
    · rw [(position_test_false_iff q u).mpr hf] at hn; simp at hn
    · rw [position_test_true_of q u (hcfg u hu) hf] at hn; simp at hn
  · intro u hu
    exact ((position_test_false_iff q u).mp hu).1

theorem layer_scan_total (layer : Nat) (now : Int) (pool : List active_triplex)
    (hcfg : configured pool) : ∃ r, layer_scan layer now pool = some r := by
  rw [layer_scan_eq]
  refine first_fail_scan_total _ now pool hcfg ?_ ?_
  · intro u hu hn
    by_cases hf : fails_layer_test layer u
    · rw [(layer_test_false_iff layer u).mpr hf] at hn; simp at hn
    · rw [layer_test_true_of layer u (hcfg u hu) hf] at hn; simp at hn
  · intro u hu
    exact ((layer_test_false_iff layer u).mp hu).1

theorem mem_take_of_getElem? {pool : List active_triplex} {j i : Nat} {u : active_triplex}
    (h : pool[j]? = some u) (hlt : j < i) : u ∈ pool.take i := by
  apply List.getElem?_mem (n := j)
  rw [List.getElem?_take_of_lt hlt]; exact h

/-- The slot a scan ends is the first failing one: with the lowest failing
index known, the effect is determined. -/
theorem scan_effect_first (fails : active_triplex → Prop) (now : Int)
    (pool pool1 : List active_triplex) (calls : List sub_call)
    (h : scan_effect fails now pool pool1 calls)
    (i : Nat) (t : active_triplex) (hi : pool[i]? = some t) (hf : fails t)
    (hlow : ∀ u ∈ pool.take i, ¬ fails u) :
    ∃ c, t.config = some c ∧ pool1 = pool.set i (end_triplex t c now).1 ∧
      calls = (end_triplex t c now).2 := by
  rcases h with ⟨_, _, e3⟩ | ⟨j, u, cu, a1, a2, a3, a4, a5, a6⟩
  · exact absurd hf (e3 t (List.getElem?_mem hi))
  · have hji : j = i := by
      rcases Nat.lt_trichotomy j i with hlt | heq | hgt
      · exact absurd a2 (hlow u (mem_take_of_getElem? a1 hlt))
      · exact heq
      · exact absurd hf (a4 t (mem_take_of_getElem? hi hgt))
    subst hji
    have : u = t := by rw [a1] at hi; exact Option.some.inj hi
    subst this
    exact ⟨cu, a3, a5, a6⟩

/-- A slot that passes the test is left as it is by the scan. -/
theorem scan_effect_keeps (fails : active_triplex → Prop) (now : Int)
    (pool pool1 : List active_triplex) (calls : List sub_call)
    (h : scan_effect fails now pool pool1 calls)
    (i : Nat) (t : active_triplex) (hi : pool[i]? = some t) (hf : ¬ fails t) :
    pool1[i]? = some t ∧
    (calls = [] ∨ ∃ j u cu, j ≠ i ∧ pool[j]? = some u ∧ u.config = some cu ∧
      pool1 = pool.set j (end_triplex u cu now).1 ∧ calls = (end_triplex u cu now).2) := by
  rcases h with ⟨e1, e2, _⟩ | ⟨j, u, cu, a1, a2, a3, _, a5, a6⟩
  · exact ⟨by rw [e1]; exact hi, Or.inl e2⟩
  · have hji : j ≠ i := by
      intro e; subst e
      rw [a1] at hi
      exact hf (Option.some.inj hi ▸ a2)
    exact ⟨by rw [a5, List.getElem?_set_ne hji]; exact hi, Or.inr ⟨j, u, cu, hji, a1, a3, a5, a6⟩⟩

theorem listener_effect_of_scan (fails : active_triplex → Prop)
    (hact : ∀ u, fails u → u.is_active = true) (now : Int)
    (pool pool1 : List active_triplex) (calls : List sub_call) (ret : Int) (err : Bool)
    (h : scan_effect fails now pool pool1 calls) :
    listener_effect now pool ⟨ret, pool1, calls, err⟩ := by
  rcases h with ⟨e1, e2, _⟩ | ⟨j, u, cu, a1, a2, a3, _, a5, a6⟩
  · exact Or.inl ⟨e1, e2⟩
  · exact Or.inr ⟨j, u, cu, a1, hact u a2, a3, a5, a6⟩

theorem position_listener_effect (pool : List active_triplex)
    (ev : Option zmk_position_state_changed) (now : Int) (o : outcome)
    (h : triplex_position_state_changed_listener pool ev now = some o) :
    listener_effect now pool o := by
  cases ev with
  | none =>
    simp [triplex_position_state_changed_listener] at h
    subst h
    exact Or.inl ⟨rfl, rfl⟩
  | some e =>
    simp only [triplex_position_state_changed_listener] at h
    cases hr : position_scan e.position now pool with
    | none => simp [hr] at h
    | some r =>
      obtain ⟨p1, cs⟩ := r
      simp [hr] at h
      subst h
      exact listener_effect_of_scan _ (fun u hu => hu.1) now pool p1 cs _ _
        (position_scan_effect _ _ _ _ _ hr)

theorem layer_listener_effect (pool : List active_triplex)
    (ev : Option zmk_layer_state_changed) (now : Int) (o : outcome)
    (h : triplex_layer_state_changed_listener pool ev now = some o) :
    listener_effect now pool o := by
  cases ev with
  | none =>
    simp [triplex_layer_state_changed_listener] at h
    subst h
    exact Or.inl ⟨rfl, rfl⟩
  | some e =>
    simp only [triplex_layer_state_changed_listener] at h
    by_cases hs : e.state = false
    · simp [hs] at h
      subst h
      exact Or.inl ⟨rfl, rfl⟩
    · cases hr : layer_scan e.layer now pool with
      | none => simp [hs, hr] at h
      | some r =>
        obtain ⟨p1, cs⟩ := r
        simp [hs, hr] at h
        subst h
        exact listener_effect_of_scan _ (fun u hu => hu.1) now pool p1 cs _ _
          (layer_scan_effect _ _ _ _ _ hr)

/-- The calls of an ending, written out. -/
theorem end_triplex_calls (t : active_triplex) (c : behavior_triplex_config) (now : Int) :
    end_triplex t c now =
      ({ t with is_active := false },
        (if t.is_pressed = true then
            [sub_call.released ⟨c.behaviors, 1⟩ ⟨t.position, now⟩] else []) ++
          [sub_call.pressed ⟨c.behaviors, 2⟩ ⟨t.position, now⟩,
           sub_call.released ⟨c.behaviors, 2⟩ ⟨t.position, now⟩]) := rfl

/-- A slot a listener turned from active to inactive is the slot it ended. -/
theorem listener_effect_ended (now : Int) (pool : List active_triplex) (o : outcome)
    (h : listener_effect now pool o) (i : Nat) (t t1 : active_triplex)
    (hi : pool[i]? = some t) (hact : t.is_active = true)
    (hi1 : o.pool[i]? = some t1) (hina : t1.is_active = false) :
    ∃ c, t.config = some c ∧ o.pool = pool.set i (end_triplex t c now).1 ∧
      o.calls = (end_triplex t c now).2 ∧ t1 = (end_triplex t c now).1 := by
  rcases h with ⟨e1, _⟩ | ⟨j, u, cu, a1, _, a3, a5, a6⟩
  · rw [e1, hi] at hi1
    cases hi1
    rw [hact] at hina
    cases hina
  · by_cases hji : j = i
    · subst hji
      rw [a1] at hi
      cases hi
      have hlt : j < pool.length := (List.getElem?_eq_some.mp a1).1
      rw [a5, List.getElem?_set_self hlt] at hi1
      exact ⟨cu, a3, a5, a6, (Option.some.inj hi1).symm⟩
    · rw [a5, List.getElem?_set_ne hji, hi] at hi1
      cases hi1
      rw [hact] at hina
      cases hina

theorem find_triplex_none_of (pool : List active_triplex) (position : Nat)
    (h : ∀ t ∈ pool, ¬ (t.position = position ∧ t.is_active = true)) :
    find_triplex pool position = none := by
  induction pool with
  | nil => rfl
  | cons t rest ih =>
    have ht := h t (List.mem_cons_self _ _)
    have ihr := ih fun u hu => h u (List.mem_cons_of_mem _ hu)
    simp only [find_triplex, ht, if_false, ihr, Option.map_none']

theorem new_triplex_full (pool : List active_triplex) (position : Nat)
    (config : behavior_triplex_config) (h : ∀ t ∈ pool, t.is_active = true) :
    new_triplex pool position config = { ret := -ENOMEM, pool := pool, triplex := none } := by
  induction pool with
  | nil => rfl
  | cons t rest ih =>
    have ht := h t (List.mem_cons_self _ _)
    have ihr := ih fun u hu => h u (List.mem_cons_of_mem _ hu)
    simp [new_triplex, ht, ihr]

theorem find_triplex_none (pool : List active_triplex) (position : Nat)
    (h : find_triplex pool position = none) :
    ∀ t ∈ pool, ¬ (t.position = position ∧ t.is_active = true) := by
  induction pool with
  | nil => simp
  | cons t rest ih =>
    unfold find_triplex at h
    by_cases ht : t.position = position ∧ t.is_active = true
    · simp [ht] at h
    · simp only [ht, if_false, Option.map_eq_none'] at h
      intro u hu
      rcases List.mem_cons.mp hu with e | e
      · rw [e]; exact ht
      · exact ih h u e

theorem find_triplex_some (pool : List active_triplex) (position i : Nat)
    (h : find_triplex pool position = some i) :
    ∃ t, pool[i]? = some t ∧ t.position = position ∧ t.is_active = true ∧
      ∀ u ∈ pool.take i, ¬ (u.position = position ∧ u.is_active = true) := by
  induction pool generalizing i with
  | nil => simp [find_triplex] at h
  | cons s rest ih =>
    unfold find_triplex at h
    by_cases hs : s.position = position ∧ s.is_active = true
    · simp [hs] at h
      subst h
      exact ⟨s, by simp, hs.1, hs.2, by simp⟩
    · simp only [hs, if_false, Option.map_eq_some'] at h
      obtain ⟨k, hk, hki⟩ := h
      subst hki
      obtain ⟨t, h1, h2, h3, h4⟩ := ih k hk
      refine ⟨t, by simpa using h1, h2, h3, ?_⟩
      intro u hu
      simp at hu
      rcases hu with e | e
      · rw [e]; exact hs
      · exact h4 u e

theorem new_triplex_free (pool : List active_triplex) (position : Nat)
    (config : behavior_triplex_config) (h : ∃ t ∈ pool, t.is_active = false) :
    ∃ i t, pool[i]? = some t ∧ t.is_active = false ∧
      (∀ u ∈ pool.take i, u.is_active = true) ∧
      new_triplex pool position config =
        { ret := 0, pool := pool.set i (fresh_triplex position config), triplex := some i } := by
  induction pool with
  | nil => simp at h
  | cons s rest ih =>
    by_cases hs : s.is_active = false
    · exact ⟨0, s, by simp, hs, by simp, by simp [new_triplex, hs, fresh_triplex]⟩
    · have hr : ∃ t ∈ rest, t.is_active = false := by
        obtain ⟨t, ht, hta⟩ := h
        rcases List.mem_cons.mp ht with e | e
        · rw [e] at hta; exact absurd hta hs
        · exact ⟨t, e, hta⟩
      obtain ⟨i, t, h1, h2, h3, h4⟩ := ih hr
      refine ⟨i + 1, t, by simpa using h1, h2, ?_, ?_⟩
      · intro u hu
        simp at hu
        rcases hu with e | e
        · rw [e]; simpa using hs
        · exact h3 u e
      · simp [new_triplex, hs, h4]

/-- The three ways a press can go. -/
theorem press_effect (pool : List active_triplex) (cfg : behavior_triplex_config)
    (event : zmk_behavior_binding_event) :
    (∃ i t, find_triplex pool event.position = some i ∧ pool[i]? = some t ∧
        t.position = event.position ∧ t.is_active = true ∧
        on_triplex_binding_pressed pool cfg event =
          some { ret := ZMK_BEHAVIOR_OPAQUE
                 pool := pool.set i { t with is_pressed := true, first_press := false }
                 calls := if t.first_press = true then first_press_calls cfg event
                          else [sub_call.pressed ⟨cfg.behaviors, 1⟩ event]
                 log_err := false }) ∨
    (find_triplex pool event.position = none ∧ (∀ t ∈ pool, t.is_active = true) ∧
        on_triplex_binding_pressed pool cfg event =
          some { ret := ZMK_BEHAVIOR_OPAQUE, pool := pool, calls := [], log_err := true }) ∨
    (find_triplex pool event.position = none ∧
      ∃ i t, pool[i]? = some t ∧ t.is_active = false ∧
        (∀ u ∈ pool.take i, u.is_active = true) ∧
        on_triplex_binding_pressed pool cfg event =
          some { ret := ZMK_BEHAVIOR_OPAQUE
                 pool := pool.set i
                   { fresh_triplex event.position cfg with
                     is_pressed := true, first_press := false }
                 calls := first_press_calls cfg event
                 log_err := false }) := by
  cases hf : find_triplex pool event.position with
  | some i =>
    left
    obtain ⟨t, h1, h2, h3, _⟩ := find_triplex_some pool event.position i hf
    refine ⟨i, t, rfl, h1, h2, h3, ?_⟩
    unfold on_triplex_binding_pressed press_resolved
    by_cases hfp : t.first_press = true
    · simp [hf, h1, hfp, first_press_calls]
    · simp [hf, h1, hfp]
  | none =>
    right
    by_cases hfree : ∃ t ∈ pool, t.is_active = false
    · right
      obtain ⟨i, t, h1, h2, h3, h4⟩ := new_triplex_free pool event.position cfg hfree
      refine ⟨rfl, i, t, h1, h2, h3, ?_⟩
      have hlt : i < pool.length := (List.getElem?_eq_some.mp h1).1
      unfold on_triplex_binding_pressed press_resolved
      simp [hf, h4, ENOMEM, List.getElem?_set_self hlt, fresh_triplex, first_press_calls]
    · left
      have hall : ∀ t ∈ pool, t.is_active = true := by
        intro t ht
        by_contra hn
        exact hfree ⟨t, ht, by simpa using hn⟩
      refine ⟨rfl, hall, ?_⟩
      simp [on_triplex_binding_pressed, hf, new_triplex_full pool _ cfg hall]

/-- The two ways a release can go. -/
theorem release_effect (pool : List active_triplex) (cfg : behavior_triplex_config)
    (event : zmk_behavior_binding_event) :
    (find_triplex pool event.position = none ∧
        on_triplex_binding_released pool cfg event =
          some { ret := ZMK_BEHAVIOR_OPAQUE, pool := pool, calls := [], log_err := false }) ∨
    (∃ i t, find_triplex pool event.position = some i ∧ pool[i]? = some t ∧
        t.position = event.position ∧ t.is_active = true ∧
        on_triplex_binding_released pool cfg event =
          some { ret := ZMK_BEHAVIOR_OPAQUE
                 pool := pool.set i { t with is_pressed := false }
                 calls := [sub_call.released ⟨cfg.behaviors, 1⟩ event]
                 log_err := false }) := by
  cases hf : find_triplex pool event.position with
  | none =>
    left
    exact ⟨rfl, by simp [on_triplex_binding_released, hf]⟩
  | some i =>
    right
    obtain ⟨t, h1, h2, h3, _⟩ := find_triplex_some pool event.position i hf
    exact ⟨i, t, rfl, h1, h2, h3, by simp [on_triplex_binding_released, hf, h1]⟩

theorem mem_set_cases {pool : List active_triplex} {i : Nat} {s u : active_triplex}
    (h : u ∈ pool.set i s) : u = s ∨ ∃ j, j ≠ i ∧ pool[j]? = some u := by
  obtain ⟨j, hj⟩ := List.mem_iff_getElem?.mp h
  by_cases hji : i = j
  · subst hji
    rw [List.getElem?_set] at hj
    simp at hj
    exact Or.inl hj.2.symm
  · rw [List.getElem?_set_ne hji] at hj
    exact Or.inr ⟨j, fun e => hji e.symm, hj⟩

theorem getElem?_set_cases {pool : List active_triplex} {i j : Nat} {s u : active_triplex}
    (h : (pool.set i s)[j]? = some u) : (j = i ∧ u = s) ∨ (j ≠ i ∧ pool[j]? = some u) := by
  by_cases hji : i = j
  · subst hji
    rw [List.getElem?_set] at h
    simp at h
    exact Or.inl ⟨rfl, h.2.symm⟩
  · rw [List.getElem?_set_ne hji] at h
    exact Or.inr ⟨fun e => hji e.symm, h⟩

/-- Writing a slot that is active only if the old one was, at the same
position, keeps positions distinct. -/
theorem unique_active_set_same (pool : List active_triplex) (i : Nat) (t s : active_triplex)
    (hu : unique_active pool) (hi : pool[i]? = some t)
    (hs : s.is_active = true → t.is_active = true ∧ s.position = t.position) :
    unique_active (pool.set i s) := by
  have key : ∀ (a : Nat) (ta : active_triplex), (pool.set i s)[a]? = some ta →
      ta.is_active = true →
      ∃ t0 : active_triplex, pool[a]? = some t0 ∧ t0.is_active = true ∧ t0.position = ta.position := by
    intro a ta ha hact
    rcases getElem?_set_cases ha with ⟨e1, e2⟩ | ⟨_, e2⟩
    · subst e1 e2
      exact ⟨t, hi, (hs hact).1, (hs hact).2.symm⟩
    · exact ⟨ta, e2, hact, rfl⟩
  intro a b ta tb ha hb haa hba hpos
  obtain ⟨ta0, h1, h2, h3⟩ := key a ta ha haa
  obtain ⟨tb0, k1, k2, k3⟩ := key b tb hb hba
  exact hu a b ta0 tb0 h1 k1 h2 k2 (by rw [h3, k3, hpos])

/-- Writing a slot at a position no active slot holds keeps positions
distinct. -/
theorem unique_active_set_new (pool : List active_triplex) (i : Nat) (s : active_triplex)
    (hu : unique_active pool)
    (hnone : ∀ u ∈ pool, ¬ (u.position = s.position ∧ u.is_active = true)) :
    unique_active (pool.set i s) := by
  intro a b ta tb ha hb haa hba hpos
  rcases getElem?_set_cases ha with ⟨e1, e2⟩ | ⟨e1, e2⟩
  · rcases getElem?_set_cases hb with ⟨f1, _⟩ | ⟨_, f2⟩
    · rw [e1, f1]
    · subst e2
      exact absurd ⟨hpos.symm, hba⟩ (hnone tb (List.getElem?_mem f2))
  · rcases getElem?_set_cases hb with ⟨_, f2⟩ | ⟨_, f2⟩
    · subst f2
      exact absurd ⟨hpos, haa⟩ (hnone ta (List.getElem?_mem e2))
    · exact hu a b ta tb e2 f2 haa hba hpos

theorem pool_inv_set_same (pool : List active_triplex) (i : Nat) (t s : active_triplex)
    (h : pool_inv pool) (hi : pool[i]? = some t)
    (hs : s.is_active = true →
      t.is_active = true ∧ s.position = t.position ∧ s.config = t.config ∧
        s.first_press = false) :
    pool_inv (pool.set i s) := by
  obtain ⟨h1, h2, h3⟩ := h
  refine ⟨?_, unique_active_set_same pool i t s h2 hi fun a => ⟨(hs a).1, (hs a).2.1⟩, ?_⟩
  · intro u hu hact
    rcases List.mem_or_eq_of_mem_set hu with e | e
    · exact h1 u e hact
    · subst e
      rw [(hs hact).2.2.1]
      exact h1 t (List.getElem?_mem hi) (hs hact).1
  · intro u hu hact
    rcases List.mem_or_eq_of_mem_set hu with e | e
    · exact h3 u e hact
    · subst e
      exact (hs hact).2.2.2

theorem pool_inv_init : pool_inv active_triplexes := by
  have hin : ∀ t ∈ active_triplexes, t.is_active = false := by
    intro t ht
    rw [active_triplexes, List.mem_replicate] at ht
    rw [ht.2]
    rfl
  refine ⟨?_, ?_, ?_⟩
  · intro t ht hact
    rw [hin t ht] at hact
    cases hact
  · intro i j ti tj hi _ hact _ _
    rw [hin ti (List.getElem?_mem hi)] at hact
    cases hact
  · intro t ht hact
    rw [hin t ht] at hact
    cases hact

theorem pool_inv_listener (now : Int) (pool : List active_triplex) (o : outcome)
    (h : pool_inv pool) (he : listener_effect now pool o) : pool_inv o.pool := by
  rcases he with ⟨e1, _⟩ | ⟨j, u, cu, a1, _, _, a5, _⟩
  · rw [e1]; exact h
  · rw [a5]
    refine pool_inv_set_same pool j u _ h a1 ?_
    intro hact
    simp [end_triplex] at hact

/-- Every entry point returns on a pool with the invariant, and keeps it. -/
theorem dispatch_pool_inv (pool : List active_triplex) (e : entry_call) (h : pool_inv pool) :
    ∃ o, dispatch pool e = some o ∧ pool_inv o.pool := by
  cases e with
  | binding_pressed cfg event =>
    rcases press_effect pool cfg event with
      ⟨i, t, _, h1, _, h3, h4⟩ | ⟨_, _, h4⟩ | ⟨hf, i, t, h1, _, _, h4⟩
    · refine ⟨_, h4, ?_⟩
      exact pool_inv_set_same pool i t _ h h1 fun _ => ⟨h3, rfl, rfl, rfl⟩
    · exact ⟨_, h4, h⟩
    · refine ⟨_, h4, ?_⟩
      obtain ⟨c1, c2, c3⟩ := h
      refine ⟨?_, unique_active_set_new pool i _ c2 (find_triplex_none pool _ hf), ?_⟩
      · intro u hu hact
        rcases List.mem_or_eq_of_mem_set hu with e | e
        · exact c1 u e hact
        · subst e; simp [fresh_triplex]
      · intro u hu hact
        rcases List.mem_or_eq_of_mem_set hu with e | e
        · exact c3 u e hact
        · subst e; rfl
  | binding_released cfg event =>
    rcases release_effect pool cfg event with ⟨_, h4⟩ | ⟨i, t, _, h1, _, h3, h4⟩
    · exact ⟨_, h4, h⟩
    · refine ⟨_, h4, ?_⟩
      exact pool_inv_set_same pool i t _ h h1 fun _ =>
        ⟨h3, rfl, rfl, h.2.2 t (List.getElem?_mem h1) h3⟩
  | position_state_changed ev now =>
    have hsome : ∃ o, triplex_position_state_changed_listener pool ev now = some o := by
      cases ev with
      | none => exact ⟨_, rfl⟩
      | some e =>
        obtain ⟨r, hr⟩ := position_scan_total e.position now pool h.1
        exact ⟨⟨ZMK_EV_EVENT_BUBBLE, r.1, r.2, false⟩,
          by simp [triplex_position_state_changed_listener, hr]⟩
    obtain ⟨o, ho⟩ := hsome
    exact ⟨o, ho, pool_inv_listener now pool o h (position_listener_effect pool ev now o ho)⟩
  | layer_state_changed ev now =>
    have hsome : ∃ o, triplex_layer_state_changed_listener pool ev now = some o := by
      cases ev with
      | none => exact ⟨_, rfl⟩
      | some e =>
        obtain ⟨r, hr⟩ := layer_scan_total e.layer now pool h.1
        by_cases hs : e.state = false
        · exact ⟨⟨ZMK_EV_EVENT_BUBBLE, pool, [], false⟩,
            by simp [triplex_layer_state_changed_listener, hs]⟩
        · exact ⟨⟨ZMK_EV_EVENT_BUBBLE, r.1, r.2, false⟩,
            by simp [triplex_layer_state_changed_listener, hs, hr]⟩
    obtain ⟨o, ho⟩ := hsome
    exact ⟨o, ho, pool_inv_listener now pool o h (layer_listener_effect pool ev now o ho)⟩

theorem run_pool_inv (es : List entry_call) (m : machine) (h : pool_inv m.pool) :
    ∃ m1, run m es = some m1 ∧ pool_inv m1.pool := by
  induction es generalizing m with
  | nil => exact ⟨m, rfl, h⟩
  | cons e es ih =>
    obtain ⟨o, ho, hinv⟩ := dispatch_pool_inv m.pool e h
    obtain ⟨m1, hm1, hinv1⟩ := ih ⟨o.pool, m.trace ++ o.calls⟩ hinv
    exact ⟨m1, by simp [run, step, ho, hm1], hinv1⟩

theorem foldl_hold_step_none (p : Nat) (calls : List sub_call) :
    calls.foldl (hold_step p) none = none := by
  induction calls with
  | nil => rfl
  | cons c cs ih => simpa [List.foldl, hold_step] using ih

theorem alternates_of_hold_step (p : Nat) (trace : List sub_call) (o o1 : Bool)
    (h : trace.foldl (hold_step p) (some o) = some o1) :
    alternates (!o) (hold_calls p trace) = true := by
  induction trace generalizing o with
  | nil => simp [hold_calls, alternates]
  | cons c cs ih =>
    simp only [List.foldl] at h
    by_cases hc : is_hold_call p c = true
    · by_cases hp : c.is_press = o
      · simp [hold_step, hc, hp, foldl_hold_step_none] at h
      · have hs : hold_step p (some o) c = some c.is_press := by simp [hold_step, hc, hp]
        rw [hs] at h
        have ih1 := ih c.is_press h
        have hco : c.is_press = !o := by
          cases hcp : c.is_press <;> cases o <;> simp_all
        simp only [hold_calls, List.filter_cons, hc, if_true, alternates] at ih1 ⊢
        rw [hco] at ih1 ⊢
        simpa using ih1
    · have hs : hold_step p (some o) c = some o := by simp [hold_step, hc]
      rw [hs] at h
      have ih1 := ih o h
      simp only [hold_calls, List.filter_cons, hc] at ih1 ⊢
      simpa using ih1

theorem pressed_at_set (pool : List active_triplex) (i : Nat) (t s : active_triplex)
    (hi : pool[i]? = some t)
    (hother : ∀ (j : Nat) (u : active_triplex), j ≠ i → pool[j]? = some u →
      u.is_active = true → u.position ≠ s.position)
    (hold : t.is_active = true → t.position = s.position) (p : Nat) :
    pressed_at (pool.set i s) p ↔
      if p = s.position then (s.is_active = true ∧ s.is_pressed = true)
      else pressed_at pool p := by
  have hlt : i < pool.length := (List.getElem?_eq_some.mp hi).1
  constructor
  · rintro ⟨u, hu, h1, h2, h3⟩
    rcases mem_set_cases hu with e | ⟨j, hj, hju⟩
    · subst e
      simp [h3.symm, h1, h2]
    · have hne : p ≠ s.position := by
        rw [← h3]; exact hother j u hj hju h1
      simp only [hne, if_false]
      exact ⟨u, List.getElem?_mem hju, h1, h2, h3⟩
  · intro h
    by_cases hp : p = s.position
    · simp only [hp, if_true] at h
      refine ⟨s, List.getElem?_mem (n := i) ?_, h.1, h.2, hp.symm⟩
      rw [List.getElem?_set_self hlt]
    · simp only [hp, if_false] at h
      obtain ⟨u, hu, h1, h2, h3⟩ := h
      obtain ⟨j, hj⟩ := List.mem_iff_getElem?.mp hu
      have hji : i ≠ j := by
        intro e
        subst e
        rw [hi] at hj
        cases hj
        exact hp (by rw [← h3, hold h1])
      refine ⟨u, List.getElem?_mem (n := j) ?_, h1, h2, h3⟩
      rw [List.getElem?_set_ne hji]; exact hj

/-- The invariant after one slot was written and some calls made. -/
theorem hold_inv_set (cfg_of : Nat → behavior_triplex_config) (held held1 : List Nat)
    (pool : List active_triplex) (trace calls : List sub_call) (i : Nat)
    (t s : active_triplex)
    (hinv : hold_inv cfg_of held pool trace) (hi : pool[i]? = some t)
    (hother : ∀ (j : Nat) (u : active_triplex), j ≠ i → pool[j]? = some u →
      u.is_active = true → u.position ≠ s.position)
    (hold : t.is_active = true → t.position = s.position)
    (hheld : ∀ q, q ≠ s.position → (q ∈ held1 ↔ q ∈ held))
    (hs2 : s.is_active = true → (s.is_pressed = true ↔ s.position ∈ held1))
    (hs3 : s.is_active = true → s.config = some (cfg_of s.position))
    (hstate : ∀ (p : Nat) (o : Bool), (o = true ↔ pressed_at pool p) →
      ∃ o1, calls.foldl (hold_step p) (some o) = some o1 ∧
        (o1 = true ↔ if p = s.position then (s.is_active = true ∧ s.is_pressed = true)
                     else pressed_at pool p))
    (hcalls : ∀ c ∈ calls, c.binding.index = 1 →
      c.binding.behaviors = (cfg_of c.event.position).behaviors) :
    hold_inv cfg_of held1 (pool.set i s) (trace ++ calls) := by
  obtain ⟨j2, j3, j4, j5⟩ := hinv
  refine ⟨?_, ?_, ?_, ?_⟩
  · intro u hu hact
    rcases mem_set_cases hu with e | ⟨j, hj, hju⟩
    · subst e; exact hs2 hact
    · rw [hheld u.position (hother j u hj hju hact)]
      exact j2 u (List.getElem?_mem hju) hact
  · intro u hu hact
    rcases mem_set_cases hu with e | ⟨j, _, hju⟩
    · subst e; exact hs3 hact
    · exact j3 u (List.getElem?_mem hju) hact
  · intro p
    obtain ⟨o, ho, hop⟩ := j4 p
    obtain ⟨o1, h1, h2⟩ := hstate p o hop
    refine ⟨o1, ?_, ?_⟩
    · rw [hold_state, List.foldl_append]
      rw [hold_state] at ho
      rw [ho, h1]
    · rw [h2, pressed_at_set pool i t s hi hother hold p]
  · intro c hc
    rcases List.mem_append.mp hc with e | e
    · exact j5 c e
    · exact hcalls c e

/-- The invariant when the pool stays as it is and no call is made. -/
theorem hold_inv_same (cfg_of : Nat → behavior_triplex_config) (held held1 : List Nat)
    (pool : List active_triplex) (trace : List sub_call)
    (hinv : hold_inv cfg_of held pool trace)
    (hheld : ∀ t ∈ pool, t.is_active = true → (t.position ∈ held1 ↔ t.position ∈ held)) :
    hold_inv cfg_of held1 pool (trace ++ []) := by
  obtain ⟨j2, j3, j4, j5⟩ := hinv
  rw [List.append_nil]
  refine ⟨?_, j3, j4, j5⟩
  intro u hu hact
  rw [hheld u hu hact]
  exact j2 u hu hact

theorem foldl_hold_first_press (p : Nat) (o : Bool) (cfg : behavior_triplex_config)
    (event : zmk_behavior_binding_event) :
    (first_press_calls cfg event).foldl (hold_step p) (some o) =
      if event.position = p then (if o = true then none else some true) else some o := by
  by_cases hp : event.position = p <;> cases o <;>
    simp [first_press_calls, hold_step, is_hold_call, sub_call.binding, sub_call.event,
      sub_call.is_press, hp]

theorem foldl_hold_press (p : Nat) (o : Bool) (cfg : behavior_triplex_config)
    (event : zmk_behavior_binding_event) :
    [sub_call.pressed ⟨cfg.behaviors, 1⟩ event].foldl (hold_step p) (some o) =
      if event.position = p then (if o = true then none else some true) else some o := by
  by_cases hp : event.position = p <;> cases o <;>
    simp [hold_step, is_hold_call, sub_call.binding, sub_call.event, sub_call.is_press, hp]

theorem foldl_hold_release (p : Nat) (o : Bool) (cfg : behavior_triplex_config)
    (event : zmk_behavior_binding_event) :
    [sub_call.released ⟨cfg.behaviors, 1⟩ event].foldl (hold_step p) (some o) =
      if event.position = p then (if o = true then some false else none) else some o := by
  by_cases hp : event.position = p <;> cases o <;>
    simp [hold_step, is_hold_call, sub_call.binding, sub_call.event, sub_call.is_press, hp]

theorem foldl_hold_end (p : Nat) (o : Bool) (u : active_triplex)
    (cu : behavior_triplex_config) (now : Int) :
    (end_triplex u cu now).2.foldl (hold_step p) (some o) =
      if u.is_pressed = true ∧ u.position = p then (if o = true then some false else none)
      else some o := by
  by_cases hp : u.position = p <;> cases o <;> cases hpr : u.is_pressed <;>
    simp [end_triplex, hold_step, is_hold_call, sub_call.binding, sub_call.event,
      sub_call.is_press, hp, hpr]

theorem other_slots_of_unique (pool : List active_triplex) (i : Nat) (t : active_triplex)
    (hu : unique_active pool) (hi : pool[i]? = some t) (hact : t.is_active = true) :
    ∀ (j : Nat) (u : active_triplex), j ≠ i → pool[j]? = some u →
      u.is_active = true → u.position ≠ t.position := by
  intro j u hj hju hua hpos
  exact hj (hu j i u t hju hi hua hact hpos)

theorem hold_inv_press (cfg_of : Nat → behavior_triplex_config) (held : List Nat)
    (pool : List active_triplex) (trace : List sub_call) (cfg : behavior_triplex_config)
    (event : zmk_behavior_binding_event) (o : outcome)
    (hp : pool_inv pool) (hinv : hold_inv cfg_of held pool trace)
    (hok : event.position ∉ held) (hcfg : cfg = cfg_of event.position)
    (ho : on_triplex_binding_pressed pool cfg event = some o) :
    hold_inv cfg_of (event.position :: held) o.pool (trace ++ o.calls) := by
  have hnot : ¬ pressed_at pool event.position := by
    rintro ⟨u, hu, h1, h2, h3⟩
    exact hok (h3 ▸ (hinv.1 u hu h1).mp h2)
  have hstate : ∀ (calls : List sub_call) (s : active_triplex),
      (∀ (p : Nat) (o : Bool), calls.foldl (hold_step p) (some o) =
        if event.position = p then (if o = true then none else some true) else some o) →
      s.position = event.position → s.is_active = true → s.is_pressed = true →
      ∀ (p : Nat) (o : Bool), (o = true ↔ pressed_at pool p) →
      ∃ o1, calls.foldl (hold_step p) (some o) = some o1 ∧
        (o1 = true ↔ if p = s.position then (s.is_active = true ∧ s.is_pressed = true)
                     else pressed_at pool p) := by
    intro calls s hc hsp hsa hspr p o hop
    rw [hc p o, hsp, hsa, hspr]
    by_cases hpp : event.position = p
    · subst hpp
      have hof : o = false := by
        cases o with
        | false => rfl
        | true => exact absurd (hop.mp rfl) hnot
      subst hof
      exact ⟨true, by simp, by simp⟩
    · have hpp1 : ¬ p = event.position := fun e => hpp e.symm
      exact ⟨o, by simp [hpp], by simp [hpp1, hop]⟩
  rcases press_effect pool cfg event with
    ⟨i, t, _, h1, h2, h3, h4⟩ | ⟨hf, _, h4⟩ | ⟨hf, i, t, h1, h2, _, h4⟩
  · rw [h4] at ho
    cases ho
    have hfp : t.first_press = false := hp.2.2 t (List.getElem?_mem h1) h3
    simp only [hfp, Bool.false_eq_true, if_false]
    refine hold_inv_set cfg_of held _ pool trace _ i t _ hinv h1 ?_ ?_ ?_ ?_ ?_ ?_ ?_
    · exact other_slots_of_unique pool i t hp.2.1 h1 h3
    · intro _; rfl
    · intro q hq
      simp only [List.mem_cons]
      constructor
      · rintro (e | e)
        · exact absurd (e.trans h2.symm) hq
        · exact e
      · exact Or.inr
    · intro _
      simp [h2]
    · intro _
      exact hinv.2.1 t (List.getElem?_mem h1) h3
    · exact hstate _ _ (fun p o => foldl_hold_press p o cfg event) h2 h3 rfl
    · intro c hc hidx
      simp at hc
      subst hc
      simp [sub_call.binding, sub_call.event, hcfg]
  · rw [h4] at ho
    cases ho
    refine hold_inv_same cfg_of held _ pool trace hinv ?_
    intro u hu hact
    have hne : u.position ≠ event.position := fun e => find_triplex_none pool _ hf u hu ⟨e, hact⟩
    simp [hne]
  · rw [h4] at ho
    cases ho
    refine hold_inv_set cfg_of held _ pool trace _ i t _ hinv h1 ?_ ?_ ?_ ?_ ?_ ?_ ?_
    · intro j u _ hju hua hpos
      exact find_triplex_none pool _ hf u (List.getElem?_mem hju) ⟨hpos, hua⟩
    · intro hta
      rw [h2] at hta
      cases hta
    · intro q hq
      simp only [List.mem_cons]
      constructor
      · rintro (e | e)
        · exact absurd e hq
        · exact e
      · exact Or.inr
    · intro _
      simp [fresh_triplex]
    · intro _
      simp [fresh_triplex, hcfg]
    · exact hstate _ _ (fun p o => foldl_hold_first_press p o cfg event) rfl rfl rfl
    · intro c hc hidx
      simp [first_press_calls] at hc
      rcases hc with e | e | e <;> subst e <;>
        simp [sub_call.binding, sub_call.event, hcfg] at hidx ⊢

theorem hold_inv_release (cfg_of : Nat → behavior_triplex_config) (held : List Nat)
    (pool : List active_triplex) (trace : List sub_call) (cfg : behavior_triplex_config)
    (event : zmk_behavior_binding_event) (o : outcome)
    (hp : pool_inv pool) (hinv : hold_inv cfg_of held pool trace)
    (hok : event.position ∈ held) (hcfg : cfg = cfg_of event.position)
    (ho : on_triplex_binding_released pool cfg event = some o) :
    hold_inv cfg_of (held.filter fun q => q != event.position) o.pool (trace ++ o.calls) := by
  rcases release_effect pool cfg event with ⟨hf, h4⟩ | ⟨i, t, _, h1, h2, h3, h4⟩
  · rw [h4] at ho
    cases ho
    refine hold_inv_same cfg_of held _ pool trace hinv ?_
    intro u hu hact
    have hne : u.position ≠ event.position := fun e => find_triplex_none pool _ hf u hu ⟨e, hact⟩
    simp [List.mem_filter, hne]
  · rw [h4] at ho
    cases ho
    have hpr : t.is_pressed = true :=
      (hinv.1 t (List.getElem?_mem h1) h3).mpr (h2 ▸ hok)
    refine hold_inv_set cfg_of held _ pool trace _ i t _ hinv h1 ?_ ?_ ?_ ?_ ?_ ?_ ?_
    · exact other_slots_of_unique pool i t hp.2.1 h1 h3
    · intro _; rfl
    · intro q hq
      have hq1 : q ≠ event.position := fun e => hq (e.trans h2.symm)
      simp [List.mem_filter, hq1]
    · intro _
      simp [List.mem_filter, h2]
    · intro _
      exact hinv.2.1 t (List.getElem?_mem h1) h3
    · intro p o hop
      rw [foldl_hold_release p o cfg event]
      show ∃ o1, _ ∧ (o1 = true ↔ if p = t.position then (t.is_active = true ∧ false = true)
        else pressed_at pool p)
      by_cases hpp : event.position = p
      · subst hpp
        have hot : o = true := hop.mpr ⟨t, List.getElem?_mem h1, h3, hpr, h2⟩
        subst hot
        exact ⟨false, by simp, by simp [h2]⟩
      · have hpp1 : ¬ p = t.position := fun e => hpp (h2 ▸ e.symm)
        exact ⟨o, by simp [hpp], by simp [hpp1, hop]⟩
    · intro c hc _
      simp at hc
      subst hc
      simp [sub_call.binding, sub_call.event, hcfg]

theorem hold_inv_listener (cfg_of : Nat → behavior_triplex_config) (held : List Nat)
    (pool : List active_triplex) (trace : List sub_call) (now : Int) (o : outcome)
    (hp : pool_inv pool) (hinv : hold_inv cfg_of held pool trace)
    (he : listener_effect now pool o) :
    hold_inv cfg_of held o.pool (trace ++ o.calls) := by
  rcases he with ⟨e1, e2⟩ | ⟨j, u, cu, a1, a2, a3, a5, a6⟩
  · rw [e1, e2]
    exact hold_inv_same cfg_of held held pool trace hinv fun _ _ _ => Iff.rfl
  · rw [a5, a6]
    have hcu : cu = cfg_of u.position := by
      have := hinv.2.1 u (List.getElem?_mem a1) a2
      rw [a3] at this
      exact Option.some.inj this
    refine hold_inv_set cfg_of held held pool trace _ j u _ hinv a1 ?_ ?_ ?_ ?_ ?_ ?_ ?_
    · exact other_slots_of_unique pool j u hp.2.1 a1 a2
    · intro _; rfl
    · intro _ _; exact Iff.rfl
    · intro hact
      simp [end_triplex] at hact
    · intro hact
      simp [end_triplex] at hact
    · intro p o hop
      rw [foldl_hold_end p o u cu now]
      show ∃ o1, _ ∧ (o1 = true ↔ if p = u.position then (false = true ∧ u.is_pressed = true)
        else pressed_at pool p)
      by_cases hpp : u.position = p
      · subst hpp
        by_cases hpr : u.is_pressed = true
        · have hot : o = true := hop.mpr ⟨u, List.getElem?_mem a1, a2, hpr, rfl⟩
          subst hot
          exact ⟨false, by simp [hpr], by simp⟩
        · have hof : o = false := by
            cases o with
            | false => rfl
            | true =>
              obtain ⟨v, hv, v1, v2, v3⟩ := hop.mp rfl
              obtain ⟨k, hk⟩ := List.mem_iff_getElem?.mp hv
              have hkj : k = j := hp.2.1 k j v u hk a1 v1 a2 v3
              subst hkj
              rw [a1] at hk
              cases hk
              exact absurd v2 hpr
          subst hof
          exact ⟨false, by simp [hpr], by simp⟩
      · have hpp1 : ¬ p = u.position := fun e => hpp e.symm
        exact ⟨o, by simp [hpp], by simp [hpp1, hop]⟩
    · intro c hc hidx
      rw [end_triplex_calls] at hc
      simp only [List.mem_append, List.mem_cons, List.mem_singleton] at hc
      rcases hc with e | e | e | e
      · by_cases hpr : u.is_pressed = true
        · simp [hpr] at e
          subst e
          simp [sub_call.binding, sub_call.event, hcu]
        · simp [hpr] at e
      · subst e
        simp [sub_call.binding] at hidx
      · subst e
        simp [sub_call.binding] at hidx
      · simp at e

theorem hold_inv_step (cfg_of : Nat → behavior_triplex_config) (held : List Nat)
    (pool : List active_triplex) (trace : List sub_call) (e : entry_call) (o : outcome)
    (hp : pool_inv pool) (hinv : hold_inv cfg_of held pool trace)
    (hok : own_key_ok held e = true) (hcfg : uses_config cfg_of e = true)
    (ho : dispatch pool e = some o) :
    hold_inv cfg_of (next_held held e) o.pool (trace ++ o.calls) := by
  cases e with
  | binding_pressed cfg event =>
    simp [own_key_ok] at hok
    simp [uses_config] at hcfg
    exact hold_inv_press cfg_of held pool trace cfg event o hp hinv hok hcfg ho
  | binding_released cfg event =>
    simp [own_key_ok] at hok
    simp [uses_config] at hcfg
    exact hold_inv_release cfg_of held pool trace cfg event o hp hinv hok hcfg ho
  | position_state_changed ev now =>
    exact hold_inv_listener cfg_of held pool trace now o hp hinv
      (position_listener_effect pool ev now o ho)
  | layer_state_changed ev now =>
    exact hold_inv_listener cfg_of held pool trace now o hp hinv
      (layer_listener_effect pool ev now o ho)

theorem hold_inv_init (cfg_of : Nat → behavior_triplex_config) :
    hold_inv cfg_of [] active_triplexes [] := by
  have hin : ∀ t ∈ active_triplexes, t.is_active = false := by
    intro t ht
    rw [active_triplexes, List.mem_replicate] at ht
    rw [ht.2]
    rfl
  refine ⟨?_, ?_, ?_, ?_⟩
  · intro t ht hact
    rw [hin t ht] at hact
    cases hact
  · intro t ht hact
    rw [hin t ht] at hact
    cases hact
  · intro p
    refine ⟨false, rfl, ?_⟩
    constructor
    · intro h; cases h
    · rintro ⟨t, ht, hact, _⟩
      rw [hin t ht] at hact
      cases hact
  · intro c hc
    cases hc

theorem run_hold_inv (cfg_of : Nat → behavior_triplex_config) (es : List entry_call)
    (held : List Nat) (m : machine) (hp : pool_inv m.pool)
    (hinv : hold_inv cfg_of held m.pool m.trace)
    (halt : own_key_alternate held es = true)
    (hcfg : ∀ e ∈ es, uses_config cfg_of e = true) :
    ∃ m1 held1, run m es = some m1 ∧ hold_inv cfg_of held1 m1.pool m1.trace := by
  induction es generalizing held m with
  | nil => exact ⟨m, held, rfl, hinv⟩
  | cons e es ih =>
    simp only [own_key_alternate, Bool.and_eq_true] at halt
    obtain ⟨o, ho, hpo⟩ := dispatch_pool_inv m.pool e hp
    have hstep := hold_inv_step cfg_of held m.pool m.trace e o hp hinv halt.1
      (hcfg e (List.mem_cons_self _ _)) ho
    obtain ⟨m1, held1, hm1, hinv1⟩ :=
      ih (next_held held e) ⟨o.pool, m.trace ++ o.calls⟩ hpo hstep halt.2
        fun x hx => hcfg x (List.mem_cons_of_mem _ hx)
    exact ⟨m1, held1, by simp [run, step, ho, hm1], hinv1⟩

theorem to_int32_of_lt (x : Nat) (h : x < 2 ^ 31) : to_int32 x = (x : Int) := by
  have h1 : x % 2 ^ 32 = x := Nat.mod_eq_of_lt (by omega)
  unfold to_int32
  rw [h1, if_pos h]

theorem to_int32_mem_of_int32 (x : Nat) (l : List Int) (hl : ∀ v ∈ l, v < 2 ^ 31)
    (h : (x : Int) ∈ l) : to_int32 x ∈ l := by
  have hx : x < 2 ^ 31 := by
    have := hl _ h
    exact_mod_cast this
  rw [to_int32_of_lt x hx]
  exact h

theorem zero_triplex_mem_replicate (n : Nat) (u : active_triplex)
    (h : u ∈ List.replicate n zero_triplex) : u.is_active = false := by
  rw [List.mem_replicate] at h
  rw [h.2]
  rfl

theorem find_triplex_pool_with_inactive (t : active_triplex) (position : Nat)
    (h : t.is_active = false) : find_triplex (pool_with t) position = none := by
  apply find_triplex_none_of
  intro u hu hp
  rcases List.mem_cons.mp hu with e | e
  · rw [e, h] at hp
    exact absurd hp.2 (by simp)
  · rw [zero_triplex_mem_replicate _ u e] at hp
    exact absurd hp.2 (by simp)

theorem press_initial (cfg : behavior_triplex_config) (event : zmk_behavior_binding_event) :
    on_triplex_binding_pressed active_triplexes cfg event =
      some { ret := ZMK_BEHAVIOR_OPAQUE
             pool := pool_with { is_active := true, is_pressed := true, first_press := false,
                                 position := event.position, config := some cfg }
             calls := first_press_calls cfg event
             log_err := false } := by
  have hf : find_triplex active_triplexes event.position = none :=
    find_triplex_pool_with_inactive zero_triplex event.position rfl
  have hn : new_triplex active_triplexes event.position cfg =
      { ret := 0, pool := pool_with (fresh_triplex event.position cfg), triplex := some 0 } := rfl
  unfold on_triplex_binding_pressed
  rw [hf]
  simp only [hn]
  simp [ENOMEM, press_resolved, pool_with, fresh_triplex, first_press_calls]

theorem position_listener_pool_with_keeps (t : active_triplex)
    (ev : zmk_position_state_changed) (now : Int)
    (hcfg : t.is_active = true → t.config ≠ none)
    (h : ¬ fails_position_test ev.position t) :
    triplex_position_state_changed_listener (pool_with t) (some ev) now =
      some { ret := ZMK_EV_EVENT_BUBBLE, pool := pool_with t, calls := [], log_err := false } := by
  have hs : position_scan ev.position now (pool_with t) = some (pool_with t, []) := by
    rw [position_scan_eq]
    apply first_fail_scan_unchanged
    intro u hu
    rcases List.mem_cons.mp hu with e | e
    · rw [e]
      exact position_test_true_of _ t hcfg h
    · simp [position_test, zero_triplex_mem_replicate _ u e]
  simp [triplex_position_state_changed_listener, hs]

theorem position_listener_pool_with_ends (t : active_triplex) (c : behavior_triplex_config)
    (ev : zmk_position_state_changed) (now : Int) (hc : t.config = some c)
    (h : fails_position_test ev.position t) :
    triplex_position_state_changed_listener (pool_with t) (some ev) now =
      some { ret := ZMK_EV_EVENT_BUBBLE, pool := pool_with (end_triplex t c now).1,
             calls := (end_triplex t c now).2, log_err := false } := by
  have hs : position_scan ev.position now (pool_with t) =
      some (pool_with (end_triplex t c now).1, (end_triplex t c now).2) := by
    rw [position_scan_eq]
    exact first_fail_scan_first _ now (pool_with t) 0 t c rfl
      ((position_test_false_iff _ t).mpr h) hc (by simp)
  simp [triplex_position_state_changed_listener, hs]

theorem layer_listener_pool_with_ends (t : active_triplex) (c : behavior_triplex_config)
    (ev : zmk_layer_state_changed) (now : Int) (hst : ev.state = true)
    (hc : t.config = some c) (h : fails_layer_test ev.layer t) :
    triplex_layer_state_changed_listener (pool_with t) (some ev) now =
      some { ret := ZMK_EV_EVENT_BUBBLE, pool := pool_with (end_triplex t c now).1,
             calls := (end_triplex t c now).2, log_err := false } := by
  have hs : layer_scan ev.layer now (pool_with t) =
      some (pool_with (end_triplex t c now).1, (end_triplex t c now).2) := by
    rw [layer_scan_eq]
    exact first_fail_scan_first _ now (pool_with t) 0 t c rfl
      ((layer_test_false_iff _ t).mpr h) hc (by simp)
  simp [triplex_layer_state_changed_listener, hs, hst]

theorem release_pool_with_active (t : active_triplex) (cfg : behavior_triplex_config)
    (event : zmk_behavior_binding_event) (ha : t.is_active = true)
    (hp : t.position = event.position) :
    on_triplex_binding_released (pool_with t) cfg event =
      some { ret := ZMK_BEHAVIOR_OPAQUE, pool := pool_with { t with is_pressed := false },
             calls := [sub_call.released ⟨cfg.behaviors, 1⟩ event], log_err := false } := by
  have hf : find_triplex (pool_with t) event.position = some 0 := by
    simp [pool_with, find_triplex, ha, hp]
  unfold on_triplex_binding_released
  rw [hf]
  simp [pool_with]

theorem release_pool_with_inactive (t : active_triplex) (cfg : behavior_triplex_config)
    (event : zmk_behavior_binding_event) (ha : t.is_active = false) :
    on_triplex_binding_released (pool_with t) cfg event =
      some { ret := ZMK_BEHAVIOR_OPAQUE, pool := pool_with t, calls := [], log_err := false } := by
  unfold on_triplex_binding_released
  rw [find_triplex_pool_with_inactive t event.position ha]

/-- After any entry point, a slot whose `first_press` is set had it set
before. -/
theorem dispatch_first_press (pool : List active_triplex) (e : entry_call) (o : outcome)
    (h : dispatch pool e = some o) (i : Nat) (t1 : active_triplex)
    (hi : o.pool[i]? = some t1) (hfp : t1.first_press = true) :
    ∃ t, pool[i]? = some t ∧ t.first_press = true := by
  have hset : ∀ (j : Nat) (t s : active_triplex), pool[j]? = some t →
      (s.first_press = true → t.first_press = true) → o.pool = pool.set j s →
      ∃ t, pool[i]? = some t ∧ t.first_press = true := by
    intro j t s hj hs hp
    rw [hp] at hi
    rcases getElem?_set_cases hi with ⟨e1, e2⟩ | ⟨_, e2⟩
    · subst e1 e2
      exact ⟨t, hj, hs hfp⟩
    · exact ⟨t1, e2, hfp⟩
  have hlis : ∀ now, listener_effect now pool o →
      ∃ t, pool[i]? = some t ∧ t.first_press = true := by
    intro now he
    rcases he with ⟨e1, _⟩ | ⟨j, u, cu, a1, _, _, a5, _⟩
    · rw [e1] at hi
      exact ⟨t1, hi, hfp⟩
    · exact hset j u (end_triplex u cu now).1 a1 (fun hs => hs) a5
  cases e with
  | binding_pressed cfg event =>
    rcases press_effect pool cfg event with
      ⟨j, t, _, h1, _, _, h4⟩ | ⟨_, _, h4⟩ | ⟨_, j, t, h1, _, _, h4⟩
    · rw [dispatch, h4] at h
      cases h
      exact hset j t { t with is_pressed := true, first_press := false } h1
        (fun hs => by simp at hs) rfl
    · rw [dispatch, h4] at h
      cases h
      exact ⟨t1, hi, hfp⟩
    · rw [dispatch, h4] at h
      cases h
      exact hset j t
        { fresh_triplex event.position cfg with is_pressed := true, first_press := false } h1
        (fun hs => by simp at hs) rfl
  | binding_released cfg event =>
    rcases release_effect pool cfg event with ⟨_, h4⟩ | ⟨j, t, _, h1, _, _, h4⟩
    · rw [dispatch, h4] at h
      cases h
      exact ⟨t1, hi, hfp⟩
    · rw [dispatch, h4] at h
      cases h
      exact hset j t { t with is_pressed := false } h1 (fun hs => hs) rfl
  | position_state_changed ev now =>
    exact hlis now (position_listener_effect pool ev now o h)
  | layer_state_changed ev now =>
    exact hlis now (layer_listener_effect pool ev now o h)

theorem countP_set_balance (p : active_triplex → Bool) (pool : List active_triplex) (i : Nat)
    (t s : active_triplex) (hi : pool[i]? = some t) :
    (pool.set i s).countP p + (if p t = true then 1 else 0) =
      pool.countP p + (if p s = true then 1 else 0) := by
  induction pool generalizing i with
  | nil => simp at hi
  | cons x xs ih =>
    cases i with
    | zero =>
      simp at hi
      subst hi
      simp only [List.set_cons_zero, List.countP_cons]
      omega
    | succ k =>
      simp at hi
      have := ih k hi
      simp only [List.set_cons_succ, List.countP_cons]
      omega

theorem active_count_set (pool : List active_triplex) (i : Nat) (t s : active_triplex)
    (hi : pool[i]? = some t) :
    active_count (pool.set i s) + (if t.is_active = true then 1 else 0) =
      active_count pool + (if s.is_active = true then 1 else 0) :=
  countP_set_balance _ pool i t s hi

theorem active_count_set_same (pool : List active_triplex) (i : Nat) (t s : active_triplex)
    (hi : pool[i]? = some t) (h : s.is_active = t.is_active) :
    active_count (pool.set i s) = active_count pool := by
  have hc := active_count_set pool i t s hi
  rw [h] at hc
  omega

theorem active_count_set_on (pool : List active_triplex) (i : Nat) (t s : active_triplex)
    (hi : pool[i]? = some t) (ht : t.is_active = false) (hs : s.is_active = true) :
    active_count (pool.set i s) = active_count pool + 1 := by
  have hc := active_count_set pool i t s hi
  rw [ht, hs] at hc
  simpa using hc

theorem active_count_set_off (pool : List active_triplex) (i : Nat) (t s : active_triplex)
    (hi : pool[i]? = some t) (ht : t.is_active = true) (hs : s.is_active = false) :
    active_count (pool.set i s) + 1 = active_count pool := by
  have hc := active_count_set pool i t s hi
  rw [ht, hs] at hc
  simpa using hc

/-- One entry point keeps the balance of first presses, cancel presses and
active slots. -/
theorem dispatch_balance (pool : List active_triplex) (e : entry_call) (o : outcome)
    (hp : pool_inv pool) (h : dispatch pool e = some o) :
    press_count 0 o.calls + active_count pool = press_count 2 o.calls + active_count o.pool := by
  have hlis : ∀ now, listener_effect now pool o →
      press_count 0 o.calls + active_count pool =
        press_count 2 o.calls + active_count o.pool := by
    intro now he
    rcases he with ⟨e1, e2⟩ | ⟨j, u, cu, a1, a2, _, a5, a6⟩
    · rw [e1, e2]
      rfl
    · have hc := active_count_set_off pool j u (end_triplex u cu now).1 a1 a2 rfl
      have h0 : press_count 0 (end_triplex u cu now).2 = 0 := by
        cases hpr : u.is_pressed <;>
          simp [end_triplex, press_count, sub_call.is_press, sub_call.binding, hpr]
      have h2 : press_count 2 (end_triplex u cu now).2 = 1 := by
        cases hpr : u.is_pressed <;>
          simp [end_triplex, press_count, sub_call.is_press, sub_call.binding, hpr]
      rw [a5, a6, h0, h2]
      omega
  cases e with
  | binding_pressed cfg event =>
    rcases press_effect pool cfg event with
      ⟨j, t, _, h1, _, h3, h4⟩ | ⟨_, _, h4⟩ | ⟨_, j, t, h1, h2, _, h4⟩
    · rw [dispatch, h4] at h
      cases h
      have hfp : t.first_press = false := hp.2.2 t (List.getElem?_mem h1) h3
      have hc := active_count_set_same pool j t
        { t with is_pressed := true, first_press := false } h1 rfl
      simp only [hfp, Bool.false_eq_true, if_false]
      have h0 : press_count 0 [sub_call.pressed ⟨cfg.behaviors, 1⟩ event] = 0 := by
        simp [press_count, sub_call.is_press, sub_call.binding]
      have h2 : press_count 2 [sub_call.pressed ⟨cfg.behaviors, 1⟩ event] = 0 := by
        simp [press_count, sub_call.is_press, sub_call.binding]
      rw [h0, h2]
      omega
    · rw [dispatch, h4] at h
      cases h
      rfl
    · rw [dispatch, h4] at h
      cases h
      have hc := active_count_set_on pool j t
        { fresh_triplex event.position cfg with is_pressed := true, first_press := false } h1
        h2 rfl
      dsimp only [fresh_triplex] at hc ⊢
      have h0 : press_count 0 (first_press_calls cfg event) = 1 := by
        simp [first_press_calls, press_count, sub_call.is_press, sub_call.binding]
      have h2 : press_count 2 (first_press_calls cfg event) = 0 := by
        simp [first_press_calls, press_count, sub_call.is_press, sub_call.binding]
      rw [h0, h2]
      omega
  | binding_released cfg event =>
    rcases release_effect pool cfg event with ⟨_, h4⟩ | ⟨j, t, _, h1, _, h3, h4⟩
    · rw [dispatch, h4] at h
      cases h
      rfl
    · rw [dispatch, h4] at h
      cases h
      have hc := active_count_set_same pool j t { t with is_pressed := false } h1 rfl
      dsimp only at hc ⊢
      have h0 : press_count 0 [sub_call.released ⟨cfg.behaviors, 1⟩ event] = 0 := by
        simp [press_count, sub_call.is_press]
      have h2 : press_count 2 [sub_call.released ⟨cfg.behaviors, 1⟩ event] = 0 := by
        simp [press_count, sub_call.is_press]
      rw [h0, h2]
      omega
  | position_state_changed ev now =>
    exact hlis now (position_listener_effect pool ev now o h)
  | layer_state_changed ev now =>
    exact hlis now (layer_listener_effect pool ev now o h)

theorem press_count_append (index : Nat) (a b : List sub_call) :
    press_count index (a ++ b) = press_count index a + press_count index b := by
  simp [press_count, List.countP_append]

theorem run_balance (es : List entry_call) (m : machine) (hp : pool_inv m.pool)
    (hb : press_count 0 m.trace = press_count 2 m.trace + active_count m.pool) :
    ∃ m1, run m es = some m1 ∧
      press_count 0 m1.trace = press_count 2 m1.trace + active_count m1.pool := by
  induction es generalizing m with
  | nil => exact ⟨m, rfl, hb⟩
  | cons e es ih =>
    obtain ⟨o, ho, hpo⟩ := dispatch_pool_inv m.pool e hp
    have hstep := dispatch_balance m.pool e o hp ho
    have hb1 : press_count 0 (m.trace ++ o.calls) =
        press_count 2 (m.trace ++ o.calls) + active_count o.pool := by
      rw [press_count_append, press_count_append]
      omega
    obtain ⟨m1, hm1, hbal⟩ := ih ⟨o.pool, m.trace ++ o.calls⟩ hpo hb1
    exact ⟨m1, by simp [run, step, ho, hm1], hbal⟩

theorem same_live_refl (x : active_triplex) : same_live x x := ⟨rfl, fun _ => rfl⟩

theorem pools_agree_refl (a : List active_triplex) : pools_agree a a := by
  induction a with
  | nil => trivial
  | cons x xs ih => exact ⟨same_live_refl x, ih⟩

theorem pools_agree_get (a b : List active_triplex) (h : pools_agree a b) (i : Nat)
    (x : active_triplex) (hi : a[i]? = some x) : ∃ y, b[i]? = some y ∧ same_live x y := by
  induction a generalizing b i with
  | nil => simp at hi
  | cons s xs ih =>
    cases b with
    | nil => exact absurd h (by simp [pools_agree])
    | cons s1 ys =>
      obtain ⟨h1, h2⟩ := h
      cases i with
      | zero =>
        simp at hi
        subst hi
        exact ⟨s1, by simp, h1⟩
      | succ k =>
        simp at hi
        obtain ⟨y, hy, hxy⟩ := ih ys h2 k hi
        exact ⟨y, by simpa using hy, hxy⟩

theorem pools_agree_get_none (a b : List active_triplex) (h : pools_agree a b) (i : Nat)
    (hi : a[i]? = none) : b[i]? = none := by
  induction a generalizing b i with
  | nil =>
    cases b with
    | nil => simp
    | cons s1 ys => exact absurd h (by simp [pools_agree])
  | cons s xs ih =>
    cases b with
    | nil => exact absurd h (by simp [pools_agree])
    | cons s1 ys =>
      obtain ⟨_, h2⟩ := h
      cases i with
      | zero => simp at hi
      | succ k =>
        simp at hi
        have := ih ys h2 k (by simpa using hi)
        simpa using this

theorem pools_agree_set (a b : List active_triplex) (h : pools_agree a b) (i : Nat)
    (s s1 : active_triplex) (hs : same_live s s1) : pools_agree (a.set i s) (b.set i s1) := by
  induction a generalizing b i with
  | nil =>
    cases b with
    | nil => trivial
    | cons y ys => exact absurd h (by simp [pools_agree])
  | cons x xs ih =>
    cases b with
    | nil => exact absurd h (by simp [pools_agree])
    | cons y ys =>
      obtain ⟨h1, h2⟩ := h
      cases i with
      | zero => exact ⟨hs, h2⟩
      | succ k => exact ⟨h1, ih ys h2 k⟩

theorem same_live_cond (x y : active_triplex) (h : same_live x y) (position : Nat) :
    (x.position = position ∧ x.is_active = true) ↔
      (y.position = position ∧ y.is_active = true) := by
  obtain ⟨h1, h2⟩ := h
  constructor
  · rintro ⟨hp, ha⟩
    have := h2 ha
    subst this
    exact ⟨hp, ha⟩
  · rintro ⟨hp, ha⟩
    have hxa : x.is_active = true := by rw [h1]; exact ha
    have := h2 hxa
    subst this
    exact ⟨hp, ha⟩

theorem find_triplex_agree (a b : List active_triplex) (h : pools_agree a b) (position : Nat) :
    find_triplex a position = find_triplex b position := by
  induction a generalizing b with
  | nil =>
    cases b with
    | nil => rfl
    | cons y ys => exact absurd h (by simp [pools_agree])
  | cons x xs ih =>
    cases b with
    | nil => exact absurd h (by simp [pools_agree])
    | cons y ys =>
      obtain ⟨h1, h2⟩ := h
      have hc := same_live_cond x y h1 position
      by_cases hx : x.position = position ∧ x.is_active = true
      · simp only [find_triplex, hx, hc.mp hx, and_self, if_true]
      · have hy : ¬ (y.position = position ∧ y.is_active = true) := fun e => hx (hc.mpr e)
        simp only [find_triplex, hx, hy, if_false, ih ys h2]

theorem new_triplex_agree (a b : List active_triplex) (h : pools_agree a b) (position : Nat)
    (config : behavior_triplex_config) :
    (new_triplex a position config).ret = (new_triplex b position config).ret ∧
    (new_triplex a position config).triplex = (new_triplex b position config).triplex ∧
    pools_agree (new_triplex a position config).pool (new_triplex b position config).pool := by
  induction a generalizing b with
  | nil =>
    cases b with
    | nil => exact ⟨rfl, rfl, trivial⟩
    | cons y ys => exact absurd h (by simp [pools_agree])
  | cons x xs ih =>
    cases b with
    | nil => exact absurd h (by simp [pools_agree])
    | cons y ys =>
      obtain ⟨h1, h2⟩ := h
      by_cases hx : x.is_active = false
      · have hy : y.is_active = false := by rw [← h1.1]; exact hx
        have ea : new_triplex (x :: xs) position config =
            { ret := 0, pool := fresh_triplex position config :: xs, triplex := some 0 } := by
          simp [new_triplex, hx, fresh_triplex]
        have eb : new_triplex (y :: ys) position config =
            { ret := 0, pool := fresh_triplex position config :: ys, triplex := some 0 } := by
          simp [new_triplex, hy, fresh_triplex]
        rw [ea, eb]
        exact ⟨rfl, rfl, same_live_refl _, h2⟩
      · have hy : ¬ y.is_active = false := by rw [← h1.1]; exact hx
        obtain ⟨i1, i2, i3⟩ := ih ys h2
        have ea : new_triplex (x :: xs) position config =
            { ret := (new_triplex xs position config).ret
              pool := x :: (new_triplex xs position config).pool
              triplex := (new_triplex xs position config).triplex.map Nat.succ } := by
          simp [new_triplex, hx]
        have eb : new_triplex (y :: ys) position config =
            { ret := (new_triplex ys position config).ret
              pool := y :: (new_triplex ys position config).pool
              triplex := (new_triplex ys position config).triplex.map Nat.succ } := by
          simp [new_triplex, hy]
        rw [ea, eb]
        exact ⟨i1, by rw [i2], h1, i3⟩

theorem press_resolved_agree (a b : List active_triplex) (h : pools_agree a b)
    (cfg : behavior_triplex_config) (event : zmk_behavior_binding_event) (i : Nat)
    (hact : ∀ x, a[i]? = some x → x.is_active = true) :
    outcomes_agree (press_resolved a cfg event i) (press_resolved b cfg event i) := by
  cases hi : a[i]? with
  | none =>
    have hb := pools_agree_get_none a b h i hi
    simp [press_resolved, hi, hb, outcomes_agree]
  | some x =>
    obtain ⟨y, hy, hxy⟩ := pools_agree_get a b h i x hi
    have hxe : x = y := hxy.2 (hact x hi)
    subst hxe
    unfold press_resolved
    rw [hi, hy]
    by_cases hfp : x.first_press = true
    · simp only [hfp, if_true]
      exact ⟨rfl, rfl, rfl, pools_agree_set a b h i _ _ (same_live_refl _)⟩
    · simp only [hfp, if_false]
      exact ⟨rfl, rfl, rfl, pools_agree_set a b h i _ _ (same_live_refl _)⟩

theorem first_fail_scan_agree (test : active_triplex → Option Bool)
    (hact : ∀ u, test u = some false → u.is_active = true)
    (htest : ∀ x y, same_live x y → test x = test y) (now : Int)
    (a b : List active_triplex) (h : pools_agree a b) :
    scans_agree (first_fail_scan test now a) (first_fail_scan test now b) := by
  induction a generalizing b with
  | nil =>
    cases b with
    | nil => exact ⟨rfl, trivial⟩
    | cons y ys => exact absurd h (by simp [pools_agree])
  | cons x xs ih =>
    cases b with
    | nil => exact absurd h (by simp [pools_agree])
    | cons y ys =>
      obtain ⟨h1, h2⟩ := h
      have hty := htest x y h1
      unfold first_fail_scan
      rw [← hty]
      cases hx : test x with
      | none => trivial
      | some v =>
        cases v with
        | true =>
          have ihr := ih ys h2
          cases ha : first_fail_scan test now xs with
          | none =>
            cases hb : first_fail_scan test now ys with
            | none => trivial
            | some rb => rw [ha, hb] at ihr; exact absurd ihr (by simp [scans_agree])
          | some ra =>
            cases hb : first_fail_scan test now ys with
            | none => rw [ha, hb] at ihr; exact absurd ihr (by simp [scans_agree])
            | some rb =>
              rw [ha, hb] at ihr
              exact ⟨ihr.1, h1, ihr.2⟩
        | false =>
          have hxy : x = y := h1.2 (hact x hx)
          subst hxy
          cases hc : x.config with
          | none => trivial
          | some c => exact ⟨rfl, same_live_refl _, h2⟩

theorem position_test_agree (q : Nat) (x y : active_triplex) (h : same_live x y) :
    position_test q x = position_test q y := by
  by_cases ha : x.is_active = true
  · rw [h.2 ha]
  · have hx : x.is_active = false := by simpa using ha
    have hy : y.is_active = false := by rw [← h.1]; exact hx
    simp [position_test, hx, hy]

theorem layer_test_agree (layer : Nat) (x y : active_triplex) (h : same_live x y) :
    layer_test layer x = layer_test layer y := by
  by_cases ha : x.is_active = true
  · rw [h.2 ha]
  · have hx : x.is_active = false := by simpa using ha
    have hy : y.is_active = false := by rw [← h.1]; exact hx
    simp [layer_test, hx, hy]

theorem outcomes_agree_of_scans (ra rb : Option (List active_triplex × List sub_call))
    (h : scans_agree ra rb) :
    outcomes_agree
      (ra.map fun r => { ret := ZMK_EV_EVENT_BUBBLE, pool := r.1, calls := r.2, log_err := false })
      (rb.map fun r =>
        { ret := ZMK_EV_EVENT_BUBBLE, pool := r.1, calls := r.2, log_err := false }) := by
  cases ra with
  | none =>
    cases rb with
    | none => trivial
    | some y => exact absurd h (by simp [scans_agree])
  | some x =>
    cases rb with
    | none => exact absurd h (by simp [scans_agree])
    | some y => exact ⟨rfl, h.1, rfl, h.2⟩

theorem dispatch_agree (a b : List active_triplex) (h : pools_agree a b) (e : entry_call) :
    outcomes_agree (dispatch a e) (dispatch b e) := by
  cases e with
  | binding_pressed cfg event =>
    simp only [dispatch, on_triplex_binding_pressed]
    rw [← find_triplex_agree a b h event.position]
    cases hf : find_triplex a event.position with
    | some i =>
      obtain ⟨t, h1, _, h3, _⟩ := find_triplex_some a event.position i hf
      refine press_resolved_agree a b h cfg event i ?_
      intro x hx
      rw [h1] at hx
      cases hx
      exact h3
    | none =>
      obtain ⟨n1, n2, n3⟩ := new_triplex_agree a b h event.position cfg
      simp only []
      rw [← n1, ← n2]
      by_cases hret : (new_triplex a event.position cfg).ret = -ENOMEM
      · simp only [hret, if_true]
        exact ⟨rfl, rfl, rfl, n3⟩
      · simp only [hret, if_false]
        cases ht : (new_triplex a event.position cfg).triplex with
        | none => trivial
        | some i =>
          refine press_resolved_agree _ _ n3 cfg event i ?_
          intro x hx
          by_cases hfree : ∃ u ∈ a, u.is_active = false
          · obtain ⟨j, u, k1, _, _, k4⟩ := new_triplex_free a event.position cfg hfree
            rw [k4] at ht hx
            simp only [Option.some.injEq] at ht
            subst ht
            have hlt : j < a.length := (List.getElem?_eq_some.mp k1).1
            rw [List.getElem?_set_self hlt] at hx
            cases hx
            rfl
          · have hall : ∀ u ∈ a, u.is_active = true := by
              intro u hu
              by_contra hn
              exact hfree ⟨u, hu, by simpa using hn⟩
            rw [new_triplex_full a event.position cfg hall] at ht
            cases ht
  | binding_released cfg event =>
    simp only [dispatch, on_triplex_binding_released]
    rw [← find_triplex_agree a b h event.position]
    cases hf : find_triplex a event.position with
    | none => exact ⟨rfl, rfl, rfl, h⟩
    | some i =>
      obtain ⟨t, h1, _, h3, _⟩ := find_triplex_some a event.position i hf
      obtain ⟨y, hy, hxy⟩ := pools_agree_get a b h i t h1
      have hte : t = y := hxy.2 h3
      subst hte
      simp only [h1, hy]
      exact ⟨rfl, rfl, rfl, pools_agree_set a b h i _ _ (same_live_refl _)⟩
  | position_state_changed ev now =>
    simp only [dispatch, triplex_position_state_changed_listener]
    cases ev with
    | none => exact ⟨rfl, rfl, rfl, h⟩
    | some e1 =>
      simp only [position_scan_eq]
      exact outcomes_agree_of_scans _ _
        (first_fail_scan_agree _ (fun u hu => ((position_test_false_iff _ u).mp hu).1)
          (position_test_agree _) now a b h)
  | layer_state_changed ev now =>
    simp only [dispatch, triplex_layer_state_changed_listener]
    cases ev with
    | none => exact ⟨rfl, rfl, rfl, h⟩
    | some e1 =>
      by_cases hs : e1.state = false
      · simp only [hs, if_true]
        exact ⟨rfl, rfl, rfl, h⟩
      · simp only [hs, if_false, layer_scan_eq]
        exact outcomes_agree_of_scans _ _
          (first_fail_scan_agree _ (fun u hu => ((layer_test_false_iff _ u).mp hu).1)
            (layer_test_agree _) now a b h)

theorem dispatch_total (pool : List active_triplex) (e : entry_call) (hcfg : configured pool) :
    ∃ o, dispatch pool e = some o := by
  cases e with
  | binding_pressed cfg event =>
    rcases press_effect pool cfg event with
      ⟨_, _, _, _, _, _, h4⟩ | ⟨_, _, h4⟩ | ⟨_, _, _, _, _, _, h4⟩
    · exact ⟨_, h4⟩
    · exact ⟨_, h4⟩
    · exact ⟨_, h4⟩
  | binding_released cfg event =>
    rcases release_effect pool cfg event with ⟨_, h4⟩ | ⟨_, _, _, _, _, _, h4⟩
    · exact ⟨_, h4⟩
    · exact ⟨_, h4⟩
  | position_state_changed ev now =>
    cases ev with
    | none => exact ⟨_, rfl⟩
    | some e1 =>
      obtain ⟨r, hr⟩ := position_scan_total e1.position now pool hcfg
      exact ⟨⟨ZMK_EV_EVENT_BUBBLE, r.1, r.2, false⟩,
        by simp [dispatch, triplex_position_state_changed_listener, hr]⟩
  | layer_state_changed ev now =>
    cases ev with
    | none => exact ⟨_, rfl⟩
    | some e1 =>
      obtain ⟨r, hr⟩ := layer_scan_total e1.layer now pool hcfg
      by_cases hs : e1.state = false
      · exact ⟨⟨ZMK_EV_EVENT_BUBBLE, pool, [], false⟩,
          by simp [dispatch, triplex_layer_state_changed_listener, hs]⟩
      · exact ⟨⟨ZMK_EV_EVENT_BUBBLE, r.1, r.2, false⟩,
          by simp [dispatch, triplex_layer_state_changed_listener, hs, hr]⟩

/-- Hold bracketing when the entry points run one after another, no event
being delivered inside a call into a sub-behavior: when at each position the
own-key presses and releases come in turn, a press first, each with the
configuration of its position, and position and layer events come in between
in any way, the sequence runs to the end from the initial pool and, for every
position, the calls on `behaviors[1]` with that position are press, release,
press, ... in turn, a press first, each on `behaviors[1]` of the position's
configuration. -/
theorem hold_bracketing (cfg_of : Nat → behavior_triplex_config) (es : List entry_call)
    (halt : own_key_alternate [] es = true)
    (hcfg : ∀ e ∈ es, uses_config cfg_of e = true) :
    ∃ m, run machine_init es = some m ∧
      ∀ p, alternates true (hold_calls p m.trace) = true ∧
        ∀ c ∈ hold_calls p m.trace, c.binding = ⟨(cfg_of p).behaviors, 1⟩ := by
  obtain ⟨m, held, hm, _, _, h4, h5⟩ :=
    run_hold_inv cfg_of es [] machine_init pool_inv_init (hold_inv_init cfg_of) halt hcfg
  refine ⟨m, hm, fun p => ⟨?_, ?_⟩⟩
  · obtain ⟨o, ho, _⟩ := h4 p
    exact alternates_of_hold_step p m.trace false o ho
  · intro c hc
    simp only [hold_calls, List.mem_filter, is_hold_call, Bool.and_eq_true,
      decide_eq_true_eq] at hc
    obtain ⟨hmem, hidx, hpos⟩ := hc
    have hb := h5 c hmem hidx
    rw [hpos] at hb
    cases hcb : c.binding with
    | mk bs ix =>
      rw [hcb] at hb hidx
      simp only at hb hidx
      rw [hb, hidx]

theorem hold_bracketing_witness :
    ∃ m, run machine_init
        [.binding_pressed scenario_config ⟨10, 0⟩,
         .position_state_changed (some ⟨5, true, 1⟩) 1,
         .position_state_changed (some ⟨7, true, 2⟩) 2,
         .binding_released scenario_config ⟨10, 3⟩,
         .binding_pressed scenario_config ⟨10, 4⟩,
         .binding_released scenario_config ⟨10, 5⟩,
         .layer_state_changed (some ⟨2, true, 6⟩) 6] = some m ∧
      ∀ p, alternates true (hold_calls p m.trace) = true ∧
        ∀ c ∈ hold_calls p m.trace, c.binding = ⟨scenario_config.behaviors, 1⟩ :=
  hold_bracketing (fun _ => scenario_config) _ (by decide) (by decide)

/-- With no event delivered inside the calls, the handler with nested delivery
is the handler. -/
theorem on_triplex_binding_pressed_nested_quiet (pool : List active_triplex)
    (cfg : behavior_triplex_config) (event : zmk_behavior_binding_event) :
    on_triplex_binding_pressed_nested (fun _ => []) pool cfg event =
      on_triplex_binding_pressed pool cfg event := by
  have key : ∀ (p : List active_triplex) (i : Nat),
      press_resolved_nested (fun _ => []) p cfg event i = press_resolved p cfg event i := by
    intro p i
    unfold press_resolved_nested press_resolved
    cases hi : p[i]? with
    | none => rfl
    | some t =>
      have hlt : i < p.length := (List.getElem?_eq_some.mp hi).1
      by_cases hfp : t.first_press = true
      · simp [call_out, run, hfp, List.getElem?_set_self hlt, List.set_set]
      · simp [call_out, run, hfp]
  unfold on_triplex_binding_pressed_nested on_triplex_binding_pressed
  cases hf : find_triplex pool event.position with
  | some i => simp only [key]
  | none => simp only [key]

/-- C1. Uniqueness: every sequence of entry-point calls runs to the end from
the initial pool, and in the pool it leaves no two distinct slots are both
active and hold the same position. -/
theorem uniqueness (es : List entry_call) :
    ∃ m, run machine_init es = some m ∧
      ∀ (i j : Nat) (ti tj : active_triplex), m.pool[i]? = some ti → m.pool[j]? = some tj →
        ti.is_active = true → tj.is_active = true → ti.position = tj.position → i = j := by
  obtain ⟨m, hm, hinv⟩ := run_pool_inv es machine_init pool_inv_init
  exact ⟨m, hm, hinv.2.1⟩

/-- C2. First press once: in any pool reached from the initial one, a press
that finds no active instance at its position and a free slot makes the calls
press `behaviors[0]`, release `behaviors[0]`, press `behaviors[1]`; any other
press makes no call on `behaviors[0]`, and a press on a position whose
instance is active makes the one call press `behaviors[1]`. -/
theorem first_press_once (es : List entry_call) (m : machine)
    (hrun : run machine_init es = some m) (cfg : behavior_triplex_config)
    (event : zmk_behavior_binding_event) :
    ∃ o, on_triplex_binding_pressed m.pool cfg event = some o ∧
      ((find_triplex m.pool event.position = none ∧ (∃ t ∈ m.pool, t.is_active = false)) →
        o.calls = [sub_call.pressed ⟨cfg.behaviors, 0⟩ event,
                   sub_call.released ⟨cfg.behaviors, 0⟩ event,
                   sub_call.pressed ⟨cfg.behaviors, 1⟩ event]) ∧
      (¬ (find_triplex m.pool event.position = none ∧ (∃ t ∈ m.pool, t.is_active = false)) →
        ∀ c ∈ o.calls, c.binding.index ≠ 0) ∧
      (find_triplex m.pool event.position ≠ none →
        o.calls = [sub_call.pressed ⟨cfg.behaviors, 1⟩ event]) := by
  obtain ⟨m1, hm1, hinv⟩ := run_pool_inv es machine_init pool_inv_init
  rw [hrun] at hm1
  cases hm1
  rcases press_effect m.pool cfg event with
    ⟨i, t, h0, h1, _, h3, h4⟩ | ⟨h0, hfull, h4⟩ | ⟨h0, i, t, h1, h2, _, h4⟩
  · have hfp : t.first_press = false := hinv.2.2 t (List.getElem?_mem h1) h3
    refine ⟨_, h4, ?_, ?_, ?_⟩
    · rintro ⟨hn, _⟩
      rw [h0] at hn
      cases hn
    · intro _ c hc
      simp [hfp] at hc
      subst hc
      simp [sub_call.binding]
    · intro _
      simp [hfp]
  · refine ⟨_, h4, ?_, ?_, ?_⟩
    · rintro ⟨_, t, ht, hta⟩
      rw [hfull t ht] at hta
      cases hta
    · intro _ c hc
      simp at hc
    · intro hn
      exact absurd h0 hn
  · refine ⟨_, h4, ?_, ?_, ?_⟩
    · intro _
      rfl
    · intro hn
      exact absurd ⟨h0, t, List.getElem?_mem h1, h2⟩ hn
    · intro hn
      exact absurd h0 hn

theorem first_press_once_witness :
    ∃ o, on_triplex_binding_pressed two_held scenario_config ⟨12, 0⟩ = some o ∧
      ((find_triplex two_held 12 = none ∧ (∃ t ∈ two_held, t.is_active = false)) →
        o.calls = [sub_call.pressed ⟨scenario_config.behaviors, 0⟩ ⟨12, 0⟩,
                   sub_call.released ⟨scenario_config.behaviors, 0⟩ ⟨12, 0⟩,
                   sub_call.pressed ⟨scenario_config.behaviors, 1⟩ ⟨12, 0⟩]) ∧
      (¬ (find_triplex two_held 12 = none ∧ (∃ t ∈ two_held, t.is_active = false)) →
        ∀ c ∈ o.calls, c.binding.index ≠ 0) ∧
      (find_triplex two_held 12 ≠ none →
        o.calls = [sub_call.pressed ⟨scenario_config.behaviors, 1⟩ ⟨12, 0⟩]) :=
  first_press_once
    [.binding_pressed scenario_config ⟨10, 0⟩, .binding_pressed scenario_config ⟨11, 0⟩]
    ⟨two_held,
      first_press_calls scenario_config ⟨10, 0⟩ ++ first_press_calls scenario_config ⟨11, 0⟩⟩
    (by decide) scenario_config ⟨12, 0⟩

/-- C3, on the code. A press at position 10, from the initial pool, whose
`behaviors[0]` press delivers the activation of layer 2, a layer the
configuration does not share.  The layer listener runs inside the call, finds
the new instance with `is_pressed` already set, ends it and releases
`behaviors[1]`; back in the handler, `behaviors[1]` is pressed through the
pointer it kept.  So the calls on `behaviors[1]` at position 10 are a release
and then a press, not in turn from a press, and the release of the key
afterwards finds no instance and releases nothing. -/
theorem hold_bracketing_nested_failure :
    on_triplex_binding_pressed_nested first_press_raises_layer active_triplexes
        scenario_config ⟨10, 0⟩ =
      some { ret := ZMK_BEHAVIOR_OPAQUE
             pool := pool_with ⟨false, true, false, 10, some scenario_config⟩
             calls := [sub_call.pressed ⟨scenario_config.behaviors, 0⟩ ⟨10, 0⟩,
                       sub_call.released ⟨scenario_config.behaviors, 1⟩ ⟨10, 1⟩,
                       sub_call.pressed ⟨scenario_config.behaviors, 2⟩ ⟨10, 1⟩,
                       sub_call.released ⟨scenario_config.behaviors, 2⟩ ⟨10, 1⟩,
                       sub_call.released ⟨scenario_config.behaviors, 0⟩ ⟨10, 0⟩,
                       sub_call.pressed ⟨scenario_config.behaviors, 1⟩ ⟨10, 0⟩]
             log_err := false } ∧
    hold_calls 10
        [sub_call.pressed ⟨scenario_config.behaviors, 0⟩ ⟨10, 0⟩,
         sub_call.released ⟨scenario_config.behaviors, 1⟩ ⟨10, 1⟩,
         sub_call.pressed ⟨scenario_config.behaviors, 2⟩ ⟨10, 1⟩,
         sub_call.released ⟨scenario_config.behaviors, 2⟩ ⟨10, 1⟩,
         sub_call.released ⟨scenario_config.behaviors, 0⟩ ⟨10, 0⟩,
         sub_call.pressed ⟨scenario_config.behaviors, 1⟩ ⟨10, 0⟩] =
      [sub_call.released ⟨scenario_config.behaviors, 1⟩ ⟨10, 1⟩,
       sub_call.pressed ⟨scenario_config.behaviors, 1⟩ ⟨10, 0⟩] ∧
    alternates true
        [sub_call.released ⟨scenario_config.behaviors, 1⟩ ⟨10, 1⟩,
         sub_call.pressed ⟨scenario_config.behaviors, 1⟩ ⟨10, 0⟩] = false ∧
    own_key_alternate []
        [.binding_pressed scenario_config ⟨10, 0⟩,
         .binding_released scenario_config ⟨10, 2⟩] = true ∧
    on_triplex_binding_released (pool_with ⟨false, true, false, 10, some scenario_config⟩)
        scenario_config ⟨10, 2⟩ =
      some { ret := ZMK_BEHAVIOR_OPAQUE
             pool := pool_with ⟨false, true, false, 10, some scenario_config⟩
             calls := [], log_err := false } := by
  decide

/-- C4. Shared continuation, survival: an event at the instance's own position
or at a position its configuration shares leaves the slot as it is, and any
call the position listener makes is the ending of another slot. -/
theorem position_shared_survival (pool : List active_triplex) (hcfg : configured pool)
    (i : Nat) (t : active_triplex) (c : behavior_triplex_config)
    (hi : pool[i]? = some t) (_hact : t.is_active = true) (hc : t.config = some c)
    (ev : zmk_position_state_changed) (now : Int)
    (hq : ev.position = t.position ∨ to_int32 ev.position ∈ c.shared_key_positions) :
    ∃ o, triplex_position_state_changed_listener pool (some ev) now = some o ∧
      o.pool[i]? = some t ∧
      (o.calls = [] ∨ ∃ j u cu, j ≠ i ∧ pool[j]? = some u ∧ u.config = some cu ∧
        o.pool = pool.set j (end_triplex u cu now).1 ∧ o.calls = (end_triplex u cu now).2) := by
  obtain ⟨r, hr⟩ := position_scan_total ev.position now pool hcfg
  obtain ⟨p1, cs⟩ := r
  have hnf : ¬ fails_position_test ev.position t := by
    rintro ⟨_, hne, c1, hc1, hnot⟩
    rw [hc] at hc1
    cases hc1
    rcases hq with h | h
    · exact hne h.symm
    · exact hnot h
  have hk := scan_effect_keeps _ now pool p1 cs (position_scan_effect _ _ _ _ _ hr) i t hi hnf
  exact ⟨⟨ZMK_EV_EVENT_BUBBLE, p1, cs, false⟩,
    by simp [triplex_position_state_changed_listener, hr], hk.1, hk.2⟩

theorem position_shared_survival_witness :
    ∃ o, triplex_position_state_changed_listener two_held (some ⟨5, true, 0⟩) 3 = some o ∧
      o.pool[0]? = some (held_at 10) ∧
      (o.calls = [] ∨ ∃ j u cu, j ≠ 0 ∧ two_held[j]? = some u ∧ u.config = some cu ∧
        o.pool = two_held.set j (end_triplex u cu 3).1 ∧ o.calls = (end_triplex u cu 3).2) :=
  position_shared_survival two_held (by decide) 0 (held_at 10) scenario_config (by decide)
    (by decide) (by decide) ⟨5, true, 0⟩ 3 (by decide)

/-- C5, as stated, fails: slots 0 and 1 are active at positions 10 and 11, the
event at position 7 is neither of them and shared by neither, and slot 1 is
still active after the position listener ran. -/
theorem position_termination_counterexample :
    (run machine_init [.binding_pressed scenario_config ⟨10, 0⟩,
        .binding_pressed scenario_config ⟨11, 0⟩]).map machine.pool = some two_held ∧
    two_held[1]? = some (held_at 11) ∧ (held_at 11).is_active = true ∧
    (held_at 11).config = some scenario_config ∧ (7 : Nat) ≠ (held_at 11).position ∧
    to_int32 7 ∉ scenario_config.shared_key_positions ∧
    (triplex_position_state_changed_listener two_held (some ⟨7, true, 0⟩) 0).map
      (fun o => o.pool[1]?) = some (some (held_at 11)) := by
  decide

/-- C5, amended. An event at a position that is neither the instance's own nor
shared by its configuration ends the instance when no slot before it in the
pool fails the test as well; when one does, that slot is ended and the
instance is left as it is. -/
theorem position_termination_first (pool : List active_triplex) (hcfg : configured pool)
    (i : Nat) (t : active_triplex) (c : behavior_triplex_config)
    (hi : pool[i]? = some t) (hact : t.is_active = true) (hc : t.config = some c)
    (ev : zmk_position_state_changed) (now : Int)
    (hne : ev.position ≠ t.position)
    (hns : to_int32 ev.position ∉ c.shared_key_positions) :
    ∃ o, triplex_position_state_changed_listener pool (some ev) now = some o ∧
      ((∀ u ∈ pool.take i, ¬ fails_position_test ev.position u) →
        o.pool[i]? = some { t with is_active := false }) ∧
      ((∃ u ∈ pool.take i, fails_position_test ev.position u) → o.pool[i]? = some t) := by
  obtain ⟨r, hr⟩ := position_scan_total ev.position now pool hcfg
  obtain ⟨p1, cs⟩ := r
  have hf : fails_position_test ev.position t := ⟨hact, fun e => hne e.symm, c, hc, hns⟩
  have he := position_scan_effect _ _ _ _ _ hr
  refine ⟨⟨ZMK_EV_EVENT_BUBBLE, p1, cs, false⟩,
    by simp [triplex_position_state_changed_listener, hr], ?_, ?_⟩
  · intro hlow
    obtain ⟨c1, _, h2, _⟩ := scan_effect_first _ now pool p1 cs he i t hi hf hlow
    have hlt : i < pool.length := (List.getElem?_eq_some.mp hi).1
    show p1[i]? = _
    rw [h2, List.getElem?_set_self hlt]
    rfl
  · rintro ⟨u, hu, hfu⟩
    rcases he with ⟨_, _, e3⟩ | ⟨j, v, cv, a1, a2, a3, a4, a5, a6⟩
    · exact absurd hf (e3 t (List.getElem?_mem hi))
    · have hji : j ≠ i := by
        intro e
        subst e
        exact a4 u hu hfu
      show p1[i]? = _
      rw [a5, List.getElem?_set_ne hji]
      exact hi

theorem position_termination_first_witness :
    ∃ o, triplex_position_state_changed_listener two_held (some ⟨7, false, 0⟩) 4 = some o ∧
      ((∀ u ∈ two_held.take 0, ¬ fails_position_test 7 u) →
        o.pool[0]? = some { held_at 10 with is_active := false }) ∧
      ((∃ u ∈ two_held.take 0, fails_position_test 7 u) → o.pool[0]? = some (held_at 10)) :=
  position_termination_first two_held (by decide) 0 (held_at 10) scenario_config (by decide)
    (by decide) (by decide) ⟨7, false, 0⟩ 4 (by decide) (by decide)

/-- C6. Layer continuation, survival: a layer event that is a deactivation, or
the activation of a layer the instance's configuration shares, leaves the
instance's slot as it is; a deactivation leaves the whole pool as it is and
makes no call, whatever the pool holds. -/
theorem layer_survival (pool : List active_triplex) (i : Nat) (t : active_triplex)
    (c : behavior_triplex_config) (hi : pool[i]? = some t) (_hact : t.is_active = true)
    (hc : t.config = some c) (ev : zmk_layer_state_changed) (now : Int)
    (h : ev.state = false ∨ (configured pool ∧ (ev.layer : Int) ∈ c.shared_layers)) :
    ∃ o, triplex_layer_state_changed_listener pool (some ev) now = some o ∧
      o.pool[i]? = some t ∧
      (ev.state = false →
        o = { ret := ZMK_EV_EVENT_BUBBLE, pool := pool, calls := [], log_err := false }) := by
  by_cases hs : ev.state = false
  · exact ⟨⟨ZMK_EV_EVENT_BUBBLE, pool, [], false⟩,
      by simp [triplex_layer_state_changed_listener, hs], hi, fun _ => rfl⟩
  · rcases h with h | ⟨hcfg, hin⟩
    · exact absurd h hs
    · obtain ⟨r, hr⟩ := layer_scan_total ev.layer now pool hcfg
      obtain ⟨p1, cs⟩ := r
      have hnf : ¬ fails_layer_test ev.layer t := by
        rintro ⟨_, c1, hc1, hnot⟩
        rw [hc] at hc1
        cases hc1
        exact hnot hin
      have hk := scan_effect_keeps _ now pool p1 cs (layer_scan_effect _ _ _ _ _ hr) i t hi hnf
      exact ⟨⟨ZMK_EV_EVENT_BUBBLE, p1, cs, false⟩,
        by simp [triplex_layer_state_changed_listener, hs, hr], hk.1, fun e => absurd e hs⟩

theorem layer_survival_witness :
    ∃ o, triplex_layer_state_changed_listener two_held (some ⟨1, true, 0⟩) 2 = some o ∧
      o.pool[1]? = some (held_at 11) ∧
      (true = false →
        o = { ret := ZMK_EV_EVENT_BUBBLE, pool := two_held, calls := [], log_err := false }) :=
  layer_survival two_held 1 (held_at 11) scenario_config (by decide) (by decide) (by decide)
    ⟨1, true, 0⟩ 2 (Or.inr (by decide))

/-- C7, as stated, fails: slots 0 and 1 are active, layer 2 is shared by
neither, and slot 1 is still active after the layer listener ran on the
activation of layer 2. -/
theorem layer_termination_counterexample :
    (run machine_init [.binding_pressed scenario_config ⟨10, 0⟩,
        .binding_pressed scenario_config ⟨11, 0⟩]).map machine.pool = some two_held ∧
    two_held[1]? = some (held_at 11) ∧ (held_at 11).is_active = true ∧
    (held_at 11).config = some scenario_config ∧
    ((2 : Nat) : Int) ∉ scenario_config.shared_layers ∧
    (triplex_layer_state_changed_listener two_held (some ⟨2, true, 0⟩) 0).map
      (fun o => o.pool[1]?) = some (some (held_at 11)) := by
  decide

/-- C7, amended. The activation of a layer the instance's configuration does
not share ends the instance when no slot before it in the pool fails the test
as well; when one does, that slot is ended and the instance is left as it
is. -/
theorem layer_termination_first (pool : List active_triplex) (hcfg : configured pool)
    (i : Nat) (t : active_triplex) (c : behavior_triplex_config)
    (hi : pool[i]? = some t) (hact : t.is_active = true) (hc : t.config = some c)
    (ev : zmk_layer_state_changed) (now : Int) (hst : ev.state = true)
    (hns : (ev.layer : Int) ∉ c.shared_layers) :
    ∃ o, triplex_layer_state_changed_listener pool (some ev) now = some o ∧
      ((∀ u ∈ pool.take i, ¬ fails_layer_test ev.layer u) →
        o.pool[i]? = some { t with is_active := false }) ∧
      ((∃ u ∈ pool.take i, fails_layer_test ev.layer u) → o.pool[i]? = some t) := by
  obtain ⟨r, hr⟩ := layer_scan_total ev.layer now pool hcfg
  obtain ⟨p1, cs⟩ := r
  have hf : fails_layer_test ev.layer t := ⟨hact, c, hc, hns⟩
  have he := layer_scan_effect _ _ _ _ _ hr
  refine ⟨⟨ZMK_EV_EVENT_BUBBLE, p1, cs, false⟩,
    by simp [triplex_layer_state_changed_listener, hr, hst], ?_, ?_⟩
  · intro hlow
    obtain ⟨c1, _, h2, _⟩ := scan_effect_first _ now pool p1 cs he i t hi hf hlow
    have hlt : i < pool.length := (List.getElem?_eq_some.mp hi).1
    show p1[i]? = _
    rw [h2, List.getElem?_set_self hlt]
    rfl
  · rintro ⟨u, hu, hfu⟩
    rcases he with ⟨_, _, e3⟩ | ⟨j, v, cv, a1, a2, a3, a4, a5, a6⟩
    · exact absurd hf (e3 t (List.getElem?_mem hi))
    · have hji : j ≠ i := by
        intro e
        subst e
        exact a4 u hu hfu
      show p1[i]? = _
      rw [a5, List.getElem?_set_ne hji]
      exact hi

theorem layer_termination_first_witness :
    ∃ o, triplex_layer_state_changed_listener two_held (some ⟨2, true, 0⟩) 4 = some o ∧
      ((∀ u ∈ two_held.take 0, ¬ fails_layer_test 2 u) →
        o.pool[0]? = some { held_at 10 with is_active := false }) ∧
      ((∃ u ∈ two_held.take 0, fails_layer_test 2 u) → o.pool[0]? = some (held_at 10)) :=
  layer_termination_first two_held (by decide) 0 (held_at 10) scenario_config (by decide)
    (by decide) (by decide) ⟨2, true, 0⟩ 4 (by decide) (by decide)

/-- C8. First match only: each listener, on a pool whose active slots are
configured, leaves the pool as it is and makes no call when no slot fails its
continuation test; when some slot fails it, the listener clears the active
flag of the lowest-index failing slot and changes nothing else in the pool. -/
theorem first_match_only (pool : List active_triplex) (hcfg : configured pool) (now : Int) :
    (∀ ev : zmk_position_state_changed,
      ∃ o, triplex_position_state_changed_listener pool (some ev) now = some o ∧
        ((∀ u ∈ pool, ¬ fails_position_test ev.position u) → o.pool = pool ∧ o.calls = []) ∧
        ((∃ u ∈ pool, fails_position_test ev.position u) →
          ∃ i t, pool[i]? = some t ∧ fails_position_test ev.position t ∧
            (∀ u ∈ pool.take i, ¬ fails_position_test ev.position u) ∧
            o.pool = pool.set i { t with is_active := false })) ∧
    (∀ ev : zmk_layer_state_changed, ev.state = true →
      ∃ o, triplex_layer_state_changed_listener pool (some ev) now = some o ∧
        ((∀ u ∈ pool, ¬ fails_layer_test ev.layer u) → o.pool = pool ∧ o.calls = []) ∧
        ((∃ u ∈ pool, fails_layer_test ev.layer u) →
          ∃ i t, pool[i]? = some t ∧ fails_layer_test ev.layer t ∧
            (∀ u ∈ pool.take i, ¬ fails_layer_test ev.layer u) ∧
            o.pool = pool.set i { t with is_active := false })) := by
  constructor
  · intro ev
    obtain ⟨r, hr⟩ := position_scan_total ev.position now pool hcfg
    obtain ⟨p1, cs⟩ := r
    have he := position_scan_effect _ _ _ _ _ hr
    refine ⟨⟨ZMK_EV_EVENT_BUBBLE, p1, cs, false⟩,
      by simp [triplex_position_state_changed_listener, hr], ?_, ?_⟩
    · intro hall
      rcases he with ⟨e1, e2, _⟩ | ⟨j, u, cu, a1, a2, _⟩
      · exact ⟨e1, e2⟩
      · exact absurd a2 (hall u (List.getElem?_mem a1))
    · rintro ⟨u, hu, hfu⟩
      rcases he with ⟨_, _, e3⟩ | ⟨j, v, cv, a1, a2, _, a4, a5, _⟩
      · exact absurd hfu (e3 u hu)
      · exact ⟨j, v, a1, a2, a4, a5⟩
  · intro ev hst
    obtain ⟨r, hr⟩ := layer_scan_total ev.layer now pool hcfg
    obtain ⟨p1, cs⟩ := r
    have he := layer_scan_effect _ _ _ _ _ hr
    refine ⟨⟨ZMK_EV_EVENT_BUBBLE, p1, cs, false⟩,
      by simp [triplex_layer_state_changed_listener, hr, hst], ?_, ?_⟩
    · intro hall
      rcases he with ⟨e1, e2, _⟩ | ⟨j, u, cu, a1, a2, _⟩
      · exact ⟨e1, e2⟩
      · exact absurd a2 (hall u (List.getElem?_mem a1))
    · rintro ⟨u, hu, hfu⟩
      rcases he with ⟨_, _, e3⟩ | ⟨j, v, cv, a1, a2, _, a4, a5, _⟩
      · exact absurd hfu (e3 u hu)
      · exact ⟨j, v, a1, a2, a4, a5⟩

theorem first_match_only_witness :
    (∀ ev : zmk_position_state_changed,
      ∃ o, triplex_position_state_changed_listener two_held (some ev) 9 = some o ∧
        ((∀ u ∈ two_held, ¬ fails_position_test ev.position u) →
          o.pool = two_held ∧ o.calls = []) ∧
        ((∃ u ∈ two_held, fails_position_test ev.position u) →
          ∃ i t, two_held[i]? = some t ∧ fails_position_test ev.position t ∧
            (∀ u ∈ two_held.take i, ¬ fails_position_test ev.position u) ∧
            o.pool = two_held.set i { t with is_active := false })) ∧
    (∀ ev : zmk_layer_state_changed, ev.state = true →
      ∃ o, triplex_layer_state_changed_listener two_held (some ev) 9 = some o ∧
        ((∀ u ∈ two_held, ¬ fails_layer_test ev.layer u) → o.pool = two_held ∧ o.calls = []) ∧
        ((∃ u ∈ two_held, fails_layer_test ev.layer u) →
          ∃ i t, two_held[i]? = some t ∧ fails_layer_test ev.layer t ∧
            (∀ u ∈ two_held.take i, ¬ fails_layer_test ev.layer u) ∧
            o.pool = two_held.set i { t with is_active := false })) :=
  first_match_only two_held (by decide) 9

/-- C9. Resource exhaustion: with all ten slots active, a press at a position
no active slot holds gets `-ENOMEM` from `new_triplex`, makes no sub-behavior
call, leaves the pool as it is, logs the error and returns the opaque
verdict. -/
theorem resource_exhaustion (pool : List active_triplex) (cfg : behavior_triplex_config)
    (event : zmk_behavior_binding_event)
    (_hlen : pool.length = ZMK_BHV_MAX_ACTIVE_TRIPLEX)
    (hfull : ∀ t ∈ pool, t.is_active = true)
    (hpos : ∀ t ∈ pool, t.is_active = true → t.position ≠ event.position) :
    new_triplex pool event.position cfg = { ret := -ENOMEM, pool := pool, triplex := none } ∧
    on_triplex_binding_pressed pool cfg event =
      some { ret := ZMK_BEHAVIOR_OPAQUE, pool := pool, calls := [], log_err := true } := by
  have hfind : find_triplex pool event.position = none :=
    find_triplex_none_of pool event.position fun t ht h => hpos t ht h.2 h.1
  have hnew := new_triplex_full pool event.position cfg hfull
  refine ⟨hnew, ?_⟩
  simp [on_triplex_binding_pressed, hfind, hnew]

theorem resource_exhaustion_witness :
    new_triplex full_pool 10 scenario_config =
      { ret := -ENOMEM, pool := full_pool, triplex := none } ∧
    on_triplex_binding_pressed full_pool scenario_config ⟨10, 0⟩ =
      some { ret := ZMK_BEHAVIOR_OPAQUE, pool := full_pool, calls := [], log_err := true } :=
  resource_exhaustion full_pool scenario_config ⟨10, 0⟩ (by decide) (by decide) (by decide)

/-- C10. Terminate call sequence: when a listener turns an active slot
inactive, the slot changes in its active flag only, and the calls of the
listener are the release of `behaviors[1]` of the stored configuration if the
slot was pressed, then the press and the release of its `behaviors[2]`, each
with the slot's position and the time read. -/
theorem terminate_call_sequence (pool : List active_triplex) (now : Int) (i : Nat)
    (t t1 : active_triplex) (hi : pool[i]? = some t) (hact : t.is_active = true)
    (hina : t1.is_active = false) (o : outcome) (hi1 : o.pool[i]? = some t1)
    (h : (∃ ev, triplex_position_state_changed_listener pool ev now = some o) ∨
         (∃ ev, triplex_layer_state_changed_listener pool ev now = some o)) :
    t1 = { t with is_active := false } ∧ o.pool = pool.set i t1 ∧
    ∃ c, t.config = some c ∧
      o.calls =
        (if t.is_pressed = true then
            [sub_call.released ⟨c.behaviors, 1⟩ ⟨t.position, now⟩] else []) ++
          [sub_call.pressed ⟨c.behaviors, 2⟩ ⟨t.position, now⟩,
           sub_call.released ⟨c.behaviors, 2⟩ ⟨t.position, now⟩] := by
  have he : listener_effect now pool o := by
    rcases h with ⟨ev, h⟩ | ⟨ev, h⟩
    · exact position_listener_effect pool ev now o h
    · exact layer_listener_effect pool ev now o h
  obtain ⟨c, hc, hp, hcalls, ht1⟩ := listener_effect_ended now pool o he i t t1 hi hact hi1 hina
  rw [end_triplex_calls] at hp hcalls ht1
  exact ⟨ht1, by rw [ht1]; exact hp, c, hc, hcalls⟩

theorem terminate_call_sequence_witness :
    { held_at 10 with is_active := false } = { held_at 10 with is_active := false } ∧
    (⟨ZMK_EV_EVENT_BUBBLE, two_held.set 0 { held_at 10 with is_active := false },
        [sub_call.released ⟨scenario_config.behaviors, 1⟩ ⟨10, 6⟩,
         sub_call.pressed ⟨scenario_config.behaviors, 2⟩ ⟨10, 6⟩,
         sub_call.released ⟨scenario_config.behaviors, 2⟩ ⟨10, 6⟩], false⟩ : outcome).pool =
      two_held.set 0 { held_at 10 with is_active := false } ∧
    ∃ c, (held_at 10).config = some c ∧
      (⟨ZMK_EV_EVENT_BUBBLE, two_held.set 0 { held_at 10 with is_active := false },
        [sub_call.released ⟨scenario_config.behaviors, 1⟩ ⟨10, 6⟩,
         sub_call.pressed ⟨scenario_config.behaviors, 2⟩ ⟨10, 6⟩,
         sub_call.released ⟨scenario_config.behaviors, 2⟩ ⟨10, 6⟩], false⟩ : outcome).calls =
        (if (held_at 10).is_pressed = true then
            [sub_call.released ⟨c.behaviors, 1⟩ ⟨(held_at 10).position, 6⟩] else []) ++
          [sub_call.pressed ⟨c.behaviors, 2⟩ ⟨(held_at 10).position, 6⟩,
           sub_call.released ⟨c.behaviors, 2⟩ ⟨(held_at 10).position, 6⟩] :=
  terminate_call_sequence two_held 6 0 (held_at 10) { held_at 10 with is_active := false }
    (by decide) (by decide) (by decide) _ (by decide)
    (Or.inl ⟨some ⟨7, true, 0⟩, by decide⟩)

/-- C11. First scenario, for any configuration with bindings `[A, B, C]`, any
position `P`, any shared position `Q` and any position `R` that is neither `P`
nor shared: from the initial pool, the press at `P` makes the calls `A` press,
`A` release, `B` press and leaves the instance active, pressed, with
`first_press` cleared; the event at `Q` makes no call and leaves the pool as
it is; the event at `R` makes the calls `B` release, `C` press, `C` release
and leaves the instance inactive; the release at `P` makes no call; all six
calls carry position `P`. -/
theorem scenario_shared_then_interrupt (cfg : behavior_triplex_config)
    (A B C : zmk_behavior_binding) (hb : cfg.behaviors = [A, B, C]) (P : Nat)
    (evQ evR : zmk_position_state_changed)
    (hQ : to_int32 evQ.position ∈ cfg.shared_key_positions)
    (hRP : evR.position ≠ P) (hR : to_int32 evR.position ∉ cfg.shared_key_positions)
    (t0 t3 n1 n2 : Int) :
    on_triplex_binding_pressed active_triplexes cfg ⟨P, t0⟩ =
      some { ret := ZMK_BEHAVIOR_OPAQUE
             pool := pool_with ⟨true, true, false, P, some cfg⟩
             calls := [sub_call.pressed ⟨cfg.behaviors, 0⟩ ⟨P, t0⟩,
                       sub_call.released ⟨cfg.behaviors, 0⟩ ⟨P, t0⟩,
                       sub_call.pressed ⟨cfg.behaviors, 1⟩ ⟨P, t0⟩]
             log_err := false } ∧
    triplex_position_state_changed_listener (pool_with ⟨true, true, false, P, some cfg⟩)
        (some evQ) n1 =
      some { ret := ZMK_EV_EVENT_BUBBLE, pool := pool_with ⟨true, true, false, P, some cfg⟩,
             calls := [], log_err := false } ∧
    triplex_position_state_changed_listener (pool_with ⟨true, true, false, P, some cfg⟩)
        (some evR) n2 =
      some { ret := ZMK_EV_EVENT_BUBBLE
             pool := pool_with ⟨false, true, false, P, some cfg⟩
             calls := [sub_call.released ⟨cfg.behaviors, 1⟩ ⟨P, n2⟩,
                       sub_call.pressed ⟨cfg.behaviors, 2⟩ ⟨P, n2⟩,
                       sub_call.released ⟨cfg.behaviors, 2⟩ ⟨P, n2⟩]
             log_err := false } ∧
    on_triplex_binding_released (pool_with ⟨false, true, false, P, some cfg⟩) cfg ⟨P, t3⟩ =
      some { ret := ZMK_BEHAVIOR_OPAQUE, pool := pool_with ⟨false, true, false, P, some cfg⟩,
             calls := [], log_err := false } ∧
    ∃ m, run machine_init
        [.binding_pressed cfg ⟨P, t0⟩, .position_state_changed (some evQ) n1,
         .position_state_changed (some evR) n2, .binding_released cfg ⟨P, t3⟩] = some m ∧
      m.pool = pool_with ⟨false, true, false, P, some cfg⟩ ∧
      m.trace.map sub_call.summary =
        [(true, some A, P), (false, some A, P), (true, some B, P),
         (false, some B, P), (true, some C, P), (false, some C, P)] := by
  have h1 := press_initial cfg ⟨P, t0⟩
  have h2 := position_listener_pool_with_keeps ⟨true, true, false, P, some cfg⟩ evQ n1
    (by simp) (by
      rintro ⟨_, _, c, hc, hn⟩
      simp at hc
      subst hc
      exact hn hQ)
  have h3 := position_listener_pool_with_ends ⟨true, true, false, P, some cfg⟩ cfg evR n2 rfl
    ⟨rfl, fun e => hRP e.symm, cfg, rfl, hR⟩
  have h4 := release_pool_with_inactive ⟨false, true, false, P, some cfg⟩ cfg ⟨P, t3⟩ rfl
  refine ⟨h1, h2, h3, h4, ?_⟩
  simp only [end_triplex_calls] at h3
  refine ⟨⟨pool_with ⟨false, true, false, P, some cfg⟩,
    [sub_call.pressed ⟨cfg.behaviors, 0⟩ ⟨P, t0⟩, sub_call.released ⟨cfg.behaviors, 0⟩ ⟨P, t0⟩,
     sub_call.pressed ⟨cfg.behaviors, 1⟩ ⟨P, t0⟩, sub_call.released ⟨cfg.behaviors, 1⟩ ⟨P, n2⟩,
     sub_call.pressed ⟨cfg.behaviors, 2⟩ ⟨P, n2⟩, sub_call.released ⟨cfg.behaviors, 2⟩ ⟨P, n2⟩]⟩,
    ?_, rfl, ?_⟩
  · simp [run, step, dispatch, machine_init, h1, h2, h3, h4, first_press_calls]
  · simp [sub_call.summary, sub_call.is_press, sub_call.binding, sub_call.event,
      binding_ptr.target, hb]

theorem scenario_shared_then_interrupt_witness :
    on_triplex_binding_pressed active_triplexes scenario_config ⟨10, 0⟩ =
      some { ret := ZMK_BEHAVIOR_OPAQUE
             pool := pool_with ⟨true, true, false, 10, some scenario_config⟩
             calls := [sub_call.pressed ⟨scenario_config.behaviors, 0⟩ ⟨10, 0⟩,
                       sub_call.released ⟨scenario_config.behaviors, 0⟩ ⟨10, 0⟩,
                       sub_call.pressed ⟨scenario_config.behaviors, 1⟩ ⟨10, 0⟩]
             log_err := false } ∧
    triplex_position_state_changed_listener
        (pool_with ⟨true, true, false, 10, some scenario_config⟩) (some ⟨5, true, 1⟩) 1 =
      some { ret := ZMK_EV_EVENT_BUBBLE
             pool := pool_with ⟨true, true, false, 10, some scenario_config⟩
             calls := [], log_err := false } ∧
    triplex_position_state_changed_listener
        (pool_with ⟨true, true, false, 10, some scenario_config⟩) (some ⟨7, true, 2⟩) 2 =
      some { ret := ZMK_EV_EVENT_BUBBLE
             pool := pool_with ⟨false, true, false, 10, some scenario_config⟩
             calls := [sub_call.released ⟨scenario_config.behaviors, 1⟩ ⟨10, 2⟩,
                       sub_call.pressed ⟨scenario_config.behaviors, 2⟩ ⟨10, 2⟩,
                       sub_call.released ⟨scenario_config.behaviors, 2⟩ ⟨10, 2⟩]
             log_err := false } ∧
    on_triplex_binding_released (pool_with ⟨false, true, false, 10, some scenario_config⟩)
        scenario_config ⟨10, 3⟩ =
      some { ret := ZMK_BEHAVIOR_OPAQUE
             pool := pool_with ⟨false, true, false, 10, some scenario_config⟩
             calls := [], log_err := false } ∧
    ∃ m, run machine_init
        [.binding_pressed scenario_config ⟨10, 0⟩,
         .position_state_changed (some ⟨5, true, 1⟩) 1,
         .position_state_changed (some ⟨7, true, 2⟩) 2,
         .binding_released scenario_config ⟨10, 3⟩] = some m ∧
      m.pool = pool_with ⟨false, true, false, 10, some scenario_config⟩ ∧
      m.trace.map sub_call.summary =
        [(true, some ⟨0⟩, 10), (false, some ⟨0⟩, 10), (true, some ⟨1⟩, 10),
         (false, some ⟨1⟩, 10), (true, some ⟨2⟩, 10), (false, some ⟨2⟩, 10)] :=
  scenario_shared_then_interrupt scenario_config ⟨0⟩ ⟨1⟩ ⟨2⟩ rfl 10 ⟨5, true, 1⟩ ⟨7, true, 2⟩
    (by decide) (by decide) (by decide) 0 3 1 2

/-- C12. Second scenario, for any configuration with bindings `[A, B, C]`, any
position `P` and any layer `M` that is not shared: from the initial pool, the
press at `P` makes the calls `A` press, `A` release, `B` press; the release at
`P` makes the call `B` release and leaves the instance active and not
pressed; the activation of `M` makes the calls `C` press, `C` release and no
release of `B`, and leaves no slot active. -/
theorem scenario_release_then_layer (cfg : behavior_triplex_config)
    (A B C : zmk_behavior_binding) (hb : cfg.behaviors = [A, B, C]) (P : Nat)
    (evM : zmk_layer_state_changed) (hst : evM.state = true)
    (hM : (evM.layer : Int) ∉ cfg.shared_layers) (t0 t1 n2 : Int) :
    on_triplex_binding_pressed active_triplexes cfg ⟨P, t0⟩ =
      some { ret := ZMK_BEHAVIOR_OPAQUE
             pool := pool_with ⟨true, true, false, P, some cfg⟩
             calls := [sub_call.pressed ⟨cfg.behaviors, 0⟩ ⟨P, t0⟩,
                       sub_call.released ⟨cfg.behaviors, 0⟩ ⟨P, t0⟩,
                       sub_call.pressed ⟨cfg.behaviors, 1⟩ ⟨P, t0⟩]
             log_err := false } ∧
    on_triplex_binding_released (pool_with ⟨true, true, false, P, some cfg⟩) cfg ⟨P, t1⟩ =
      some { ret := ZMK_BEHAVIOR_OPAQUE
             pool := pool_with ⟨true, false, false, P, some cfg⟩
             calls := [sub_call.released ⟨cfg.behaviors, 1⟩ ⟨P, t1⟩]
             log_err := false } ∧
    triplex_layer_state_changed_listener (pool_with ⟨true, false, false, P, some cfg⟩)
        (some evM) n2 =
      some { ret := ZMK_EV_EVENT_BUBBLE
             pool := pool_with ⟨false, false, false, P, some cfg⟩
             calls := [sub_call.pressed ⟨cfg.behaviors, 2⟩ ⟨P, n2⟩,
                       sub_call.released ⟨cfg.behaviors, 2⟩ ⟨P, n2⟩]
             log_err := false } ∧
    ∃ m, run machine_init
        [.binding_pressed cfg ⟨P, t0⟩, .binding_released cfg ⟨P, t1⟩,
         .layer_state_changed (some evM) n2] = some m ∧
      (∀ t ∈ m.pool, t.is_active = false) ∧
      m.trace.map sub_call.summary =
        [(true, some A, P), (false, some A, P), (true, some B, P),
         (false, some B, P), (true, some C, P), (false, some C, P)] := by
  have h1 := press_initial cfg ⟨P, t0⟩
  have h2 := release_pool_with_active ⟨true, true, false, P, some cfg⟩ cfg ⟨P, t1⟩ rfl rfl
  have h3 := layer_listener_pool_with_ends ⟨true, false, false, P, some cfg⟩ cfg evM n2 hst rfl
    ⟨rfl, cfg, rfl, hM⟩
  refine ⟨h1, h2, h3, ?_⟩
  simp only [end_triplex_calls] at h3
  refine ⟨⟨pool_with ⟨false, false, false, P, some cfg⟩,
    [sub_call.pressed ⟨cfg.behaviors, 0⟩ ⟨P, t0⟩, sub_call.released ⟨cfg.behaviors, 0⟩ ⟨P, t0⟩,
     sub_call.pressed ⟨cfg.behaviors, 1⟩ ⟨P, t0⟩, sub_call.released ⟨cfg.behaviors, 1⟩ ⟨P, t1⟩,
     sub_call.pressed ⟨cfg.behaviors, 2⟩ ⟨P, n2⟩, sub_call.released ⟨cfg.behaviors, 2⟩ ⟨P, n2⟩]⟩,
    ?_, ?_, ?_⟩
  · simp [run, step, dispatch, machine_init, h1, h2, h3, first_press_calls]
  · intro t ht
    rcases List.mem_cons.mp ht with e | e
    · rw [e]
    · exact zero_triplex_mem_replicate _ t e
  · simp [sub_call.summary, sub_call.is_press, sub_call.binding, sub_call.event,
      binding_ptr.target, hb]

theorem scenario_release_then_layer_witness :
    on_triplex_binding_pressed active_triplexes scenario_config ⟨10, 0⟩ =
      some { ret := ZMK_BEHAVIOR_OPAQUE
             pool := pool_with ⟨true, true, false, 10, some scenario_config⟩
             calls := [sub_call.pressed ⟨scenario_config.behaviors, 0⟩ ⟨10, 0⟩,
                       sub_call.released ⟨scenario_config.behaviors, 0⟩ ⟨10, 0⟩,
                       sub_call.pressed ⟨scenario_config.behaviors, 1⟩ ⟨10, 0⟩]
             log_err := false } ∧
    on_triplex_binding_released (pool_with ⟨true, true, false, 10, some scenario_config⟩)
        scenario_config ⟨10, 1⟩ =
      some { ret := ZMK_BEHAVIOR_OPAQUE
             pool := pool_with ⟨true, false, false, 10, some scenario_config⟩
             calls := [sub_call.released ⟨scenario_config.behaviors, 1⟩ ⟨10, 1⟩]
             log_err := false } ∧
    triplex_layer_state_changed_listener
        (pool_with ⟨true, false, false, 10, some scenario_config⟩) (some ⟨2, true, 2⟩) 2 =
      some { ret := ZMK_EV_EVENT_BUBBLE
             pool := pool_with ⟨false, false, false, 10, some scenario_config⟩
             calls := [sub_call.pressed ⟨scenario_config.behaviors, 2⟩ ⟨10, 2⟩,
                       sub_call.released ⟨scenario_config.behaviors, 2⟩ ⟨10, 2⟩]
             log_err := false } ∧
    ∃ m, run machine_init
        [.binding_pressed scenario_config ⟨10, 0⟩, .binding_released scenario_config ⟨10, 1⟩,
         .layer_state_changed (some ⟨2, true, 2⟩) 2] = some m ∧
      (∀ t ∈ m.pool, t.is_active = false) ∧
      m.trace.map sub_call.summary =
        [(true, some ⟨0⟩, 10), (false, some ⟨0⟩, 10), (true, some ⟨1⟩, 10),
         (false, some ⟨1⟩, 10), (true, some ⟨2⟩, 10), (false, some ⟨2⟩, 10)] :=
  scenario_release_then_layer scenario_config ⟨0⟩ ⟨1⟩ ⟨2⟩ rfl 10 ⟨2, true, 2⟩ rfl
    (by decide) 0 1 2

/-- C13. Release on an active instance: when some slot is active at the
released position, the handler makes the one call release `behaviors[1]`,
clears `is_pressed` of the lowest-index such slot, leaves every other field
of it and every other slot as they are, and returns the opaque verdict. -/
theorem release_on_active (pool : List active_triplex) (cfg : behavior_triplex_config)
    (event : zmk_behavior_binding_event)
    (h : ∃ t ∈ pool, t.is_active = true ∧ t.position = event.position) :
    ∃ i t, pool[i]? = some t ∧ t.is_active = true ∧ t.position = event.position ∧
      (∀ u ∈ pool.take i, ¬ (u.position = event.position ∧ u.is_active = true)) ∧
      on_triplex_binding_released pool cfg event =
        some { ret := ZMK_BEHAVIOR_OPAQUE
               pool := pool.set i { t with is_pressed := false }
               calls := [sub_call.released ⟨cfg.behaviors, 1⟩ event]
               log_err := false } := by
  cases hf : find_triplex pool event.position with
  | none =>
    obtain ⟨t, ht, h1, h2⟩ := h
    exact absurd ⟨h2, h1⟩ (find_triplex_none pool _ hf t ht)
  | some i =>
    obtain ⟨t, h1, h2, h3, h4⟩ := find_triplex_some pool event.position i hf
    exact ⟨i, t, h1, h3, h2, h4, by simp [on_triplex_binding_released, hf, h1]⟩

theorem release_on_active_witness :
    ∃ i t, stale_pool[i]? = some t ∧ t.is_active = true ∧ t.position = 11 ∧
      (∀ u ∈ stale_pool.take i, ¬ (u.position = 11 ∧ u.is_active = true)) ∧
      on_triplex_binding_released stale_pool scenario_config ⟨11, 8⟩ =
        some { ret := ZMK_BEHAVIOR_OPAQUE
               pool := stale_pool.set i { t with is_pressed := false }
               calls := [sub_call.released ⟨scenario_config.behaviors, 1⟩ ⟨11, 8⟩]
               log_err := false } :=
  release_on_active stale_pool scenario_config ⟨11, 8⟩ (by decide)

/-- C14. Release without an active instance: when no slot is both active and
at the released position, the handler makes no call, leaves the pool as it is
and returns the opaque verdict; a slot that is inactive and still holds the
position does not count. -/
theorem release_without_active (pool : List active_triplex) (cfg : behavior_triplex_config)
    (event : zmk_behavior_binding_event)
    (h : ∀ t ∈ pool, ¬ (t.is_active = true ∧ t.position = event.position)) :
    on_triplex_binding_released pool cfg event =
      some { ret := ZMK_BEHAVIOR_OPAQUE, pool := pool, calls := [], log_err := false } := by
  have hf : find_triplex pool event.position = none :=
    find_triplex_none_of pool event.position fun t ht hp => h t ht ⟨hp.2, hp.1⟩
  simp [on_triplex_binding_released, hf]

theorem release_without_active_witness :
    on_triplex_binding_released stale_pool scenario_config ⟨10, 8⟩ =
      some { ret := ZMK_BEHAVIOR_OPAQUE, pool := stale_pool, calls := [], log_err := false } :=
  release_without_active stale_pool scenario_config ⟨10, 8⟩ (by decide)

/-- C15. The contract of `new_triplex`: it returns 0 exactly when some slot is
inactive; then it hands out the lowest-index inactive slot, which becomes
active, not pressed, with `first_press` set and the given position and
configuration, every other slot staying as it is; when every slot is active
it returns `-ENOMEM`, writes nothing through the out-parameter and leaves the
pool as it is. -/
theorem new_triplex_contract (pool : List active_triplex) (position : Nat)
    (config : behavior_triplex_config) :
    ((new_triplex pool position config).ret = 0 ↔ ∃ t ∈ pool, t.is_active = false) ∧
    ((∃ t ∈ pool, t.is_active = false) →
      ∃ i t, pool[i]? = some t ∧ t.is_active = false ∧
        (∀ u ∈ pool.take i, u.is_active = true) ∧
        new_triplex pool position config =
          { ret := 0
            pool := pool.set i
              { is_active := true, is_pressed := false, first_press := true,
                position := position, config := some config }
            triplex := some i }) ∧
    ((∀ t ∈ pool, t.is_active = true) →
      new_triplex pool position config =
        { ret := -ENOMEM, pool := pool, triplex := none }) := by
  refine ⟨?_, fun h => new_triplex_free pool position config h,
    fun h => new_triplex_full pool position config h⟩
  constructor
  · intro hret
    by_contra hn
    have hall : ∀ t ∈ pool, t.is_active = true := by
      intro t ht
      by_contra hna
      exact hn ⟨t, ht, by simpa using hna⟩
    rw [new_triplex_full pool position config hall] at hret
    simp [ENOMEM] at hret
  · intro h
    obtain ⟨i, t, _, _, _, h4⟩ := new_triplex_free pool position config h
    rw [h4]

/-- C16. The contract of `find_triplex`: a returned index is that of the
lowest-index slot that is active and holds the position; `NULL` is returned
exactly when no slot is both; the function only reads the pool. -/
theorem find_triplex_contract (pool : List active_triplex) (position : Nat) :
    (∀ i, find_triplex pool position = some i →
      ∃ t, pool[i]? = some t ∧ t.is_active = true ∧ t.position = position ∧
        ∀ u ∈ pool.take i, ¬ (u.is_active = true ∧ u.position = position)) ∧
    (find_triplex pool position = none ↔
      ∀ t ∈ pool, ¬ (t.is_active = true ∧ t.position = position)) := by
  constructor
  · intro i hf
    obtain ⟨t, h1, h2, h3, h4⟩ := find_triplex_some pool position i hf
    exact ⟨t, h1, h3, h2, fun u hu hp => h4 u hu ⟨hp.2, hp.1⟩⟩
  · constructor
    · intro hf t ht hp
      exact find_triplex_none pool position hf t ht ⟨hp.2, hp.1⟩
    · intro h
      exact find_triplex_none_of pool position fun t ht hp => h t ht ⟨hp.2, hp.1⟩

/-- C17. The `first_press` invariant: after any sequence of entry-point calls
from the initial pool every active slot has `first_press` cleared; between
calls `first_press` never turns from cleared to set, on any pool; and
`new_triplex` changes no slot but an inactive one, in which it sets
`first_press`. -/
theorem first_press_invariant (es : List entry_call) :
    (∃ m, run machine_init es = some m ∧
      ∀ t ∈ m.pool, t.is_active = true → t.first_press = false) ∧
    (∀ (pool : List active_triplex) (e : entry_call) (o : outcome),
      dispatch pool e = some o →
      ∀ (i : Nat) (t1 : active_triplex), o.pool[i]? = some t1 → t1.first_press = true →
        ∃ t, pool[i]? = some t ∧ t.first_press = true) ∧
    (∀ (pool : List active_triplex) (position : Nat) (config : behavior_triplex_config)
      (i : Nat) (t t1 : active_triplex), pool[i]? = some t →
      (new_triplex pool position config).pool[i]? = some t1 → t1 ≠ t →
        t.is_active = false ∧ t1.first_press = true) := by
  refine ⟨?_, dispatch_first_press, ?_⟩
  · obtain ⟨m, hm, hinv⟩ := run_pool_inv es machine_init pool_inv_init
    exact ⟨m, hm, hinv.2.2⟩
  · intro pool position config i t t1 hi hi1 hne
    by_cases hfree : ∃ u ∈ pool, u.is_active = false
    · obtain ⟨j, u, h1, h2, _, h4⟩ := new_triplex_free pool position config hfree
      rw [h4] at hi1
      rcases getElem?_set_cases hi1 with ⟨e1, e2⟩ | ⟨_, e2⟩
      · subst e1
        rw [h1] at hi
        cases hi
        exact ⟨h2, by rw [e2]; rfl⟩
      · rw [hi] at e2
        exact absurd (Option.some.inj e2).symm hne
    · have hall : ∀ u ∈ pool, u.is_active = true := by
        intro u hu
        by_contra hn
        exact hfree ⟨u, hu, by simpa using hn⟩
      rw [new_triplex_full pool position config hall] at hi1
      rw [hi] at hi1
      exact absurd (Option.some.inj hi1).symm hne

/-- C18. Independence of stale fields: on two pools that agree on every active
flag and on every field of every active slot, each entry point with the same
arguments makes the same calls, returns the same value and writes the same
log, and leaves pools that agree again; when the active slots are configured
both runs return. -/
theorem stale_field_independence (a b : List active_triplex) (h : pools_agree a b)
    (e : entry_call) :
    outcomes_agree (dispatch a e) (dispatch b e) ∧
    (configured a → ∃ oa ob, dispatch a e = some oa ∧ dispatch b e = some ob ∧
      oa.ret = ob.ret ∧ oa.calls = ob.calls ∧ pools_agree oa.pool ob.pool) := by
  have hag := dispatch_agree a b h e
  refine ⟨hag, ?_⟩
  intro hcfg
  obtain ⟨oa, hoa⟩ := dispatch_total a e hcfg
  cases hob : dispatch b e with
  | none =>
    rw [hoa, hob] at hag
    exact absurd hag (by simp [outcomes_agree])
  | some ob =>
    rw [hoa, hob] at hag
    exact ⟨oa, ob, hoa, rfl, hag.1, hag.2.1, hag.2.2.2⟩

theorem stale_field_independence_witness :
    outcomes_agree
      (dispatch stale_pool (.binding_pressed scenario_config ⟨10, 7⟩))
      (dispatch stale_pool_other (.binding_pressed scenario_config ⟨10, 7⟩)) ∧
    (configured stale_pool → ∃ oa ob,
      dispatch stale_pool (.binding_pressed scenario_config ⟨10, 7⟩) = some oa ∧
      dispatch stale_pool_other (.binding_pressed scenario_config ⟨10, 7⟩) = some ob ∧
      oa.ret = ob.ret ∧ oa.calls = ob.calls ∧ pools_agree oa.pool ob.pool) :=
  stale_field_independence stale_pool stale_pool_other (by decide)
    (.binding_pressed scenario_config ⟨10, 7⟩)

/-- C19. Balance of activations and cancels: after any sequence of entry-point
calls from the initial pool, the presses of `behaviors[0]` made so far are as
many as the presses of `behaviors[2]` made so far plus the slots that are
active. -/
theorem activation_cancel_balance (es : List entry_call) :
    ∃ m, run machine_init es = some m ∧
      press_count 0 m.trace = press_count 2 m.trace + active_count m.pool :=
  run_balance es machine_init pool_inv_init (by decide)

end Triplex
